import Mathlib

/-!
# gotgbot: the method generator, the message handler, the conversation storage

A shallow embedding of the generator that turns the API description into Go
source text (scripts/methods.go), of the handler of messages
(ext/handlers/message.go) and of the in-memory storage of conversation states
(ext/handlers/conversation/in_memory.go).  Go strings are Lean strings, a
`strings.Builder` is a string that grows by `++`, a `for` loop with an early
`return` is a monadic left fold in `Except`, a nil pointer or nil map is
`none`, and an error is represented by its message (`%w` wrapping is
concatenation of messages).
-/

namespace Gotgbot

/-! ## Schema model -/

/-- One field of a method (or of a type) in the API description. -/
structure Field where
  Name : String
  Types : List String
  Required : Bool
  Description : String
deriving DecidableEq, Repr

/-- One method of the API description. -/
structure MethodDescription where
  Fields : List Field
  Returns : List String
  Description : List String
  Href : String
deriving DecidableEq, Repr

/-- The API description.  A Go map is an association list whose keys are
pairwise different; the order of the list is the order in which `range`
happens to visit the map. -/
structure APIDescription where
  Types : List (String × List Field)
  Methods : List (String × MethodDescription)
deriving DecidableEq, Repr

/-- Go zero value of `MethodDescription`, the result of indexing a map at an
absent key. -/
def MethodDescription.zero : MethodDescription :=
  { Fields := [], Returns := [], Description := [], Href := "" }

/-- Map indexing `d.Methods[name]`. -/
def methodsIndex (ms : List (String × MethodDescription)) (name : String) : MethodDescription :=
  (ms.lookup name).getD MethodDescription.zero

/-- Outcome of a Go function returning `(T, error)` that may also panic. -/
inductive Result (α : Type) where
  | ok (val : α)
  | error (msg : String)
  | panic (msg : String)
deriving DecidableEq, Repr

deriving instance DecidableEq for Except

/-- Whether the outcome is a normal return with a nil error. -/
def Result.isOk {α : Type} : Result α → Bool
  | .ok _ => true
  | _ => false

/-! ## Helpers of the generator that live outside methods.go

The functions below are called by methods.go and defined in other files of
the generator and in the Go standard library.  They are taken as parameters:
every theorem holds for each choice of them. -/

/-- The functions methods.go calls and does not define. -/
structure Helpers where
  /-- the generator helper `toGoType` -/
  toGoType : String → String
  /-- the generator helper `isTgType`, first argument `d.Types` -/
  isTgType : List (String × List Field) → String → Bool
  /-- the generator helper `getDefaultReturnVal` -/
  getDefaultReturnVal : String → String
  /-- the generator helper `getPreferredType` -/
  getPreferredType : Field → Except String String
  /-- the generator helper `snakeToCamel` -/
  snakeToCamel : String → String
  /-- the generator helper `snakeToTitle` -/
  snakeToTitle : String → String
  /-- the generator helper `goTypeStringer`: a format string, empty for none -/
  goTypeStringer : String → String
  /-- the generator helper `isTgArray` -/
  isTgArray : String → Bool
  /-- the generator helper `writeGenToFile`: text and path to the returned error -/
  writeGenToFile : String → String → Option String
  /-- the Go library function `strings.Title` -/
  stringsTitle : String → String
  /-- the Go library function `fmt.Sprintf` applied to a format and one string operand -/
  fmtSprintf : String → String → String

/-! ## Templates -/

/-- Data handed to the reader templates. -/
structure readerBranchesData where
  GoParam : String
  DefaultReturn : String
  Parameter : String
deriving DecidableEq, Repr

/-- The template `readerBranch` executed on its data: every action
`.GoParam`, `.Parameter`, `.DefaultReturn` is replaced by the field's text. -/
def readerBranch (x : readerBranchesData) : String :=
  "\nif " ++ x.GoParam ++ " != nil \x7b" ++
  "\n\tif r, ok := " ++ x.GoParam ++ ".(io.Reader); ok \x7b" ++
  "\n\t\tv.Add(\"" ++ x.Parameter ++ "\", \"attach://" ++ x.Parameter ++ "\")" ++
  "\n\t\tdata[\"" ++ x.Parameter ++ "\"] = NamedReader\x7bFile: r\x7d" ++
  "\n\t\x7d else if nf, ok := " ++ x.GoParam ++ ".(NamedReader); ok \x7b" ++
  "\n\t\tv.Add(\"" ++ x.Parameter ++ "\", \"attach://" ++ x.Parameter ++ "\")" ++
  "\n\t\tdata[\"" ++ x.Parameter ++ "\"] = nf" ++
  "\n\t\x7d else \x7b" ++
  "\n\t\treturn " ++ x.DefaultReturn ++ ", fmt.Errorf(\"unknown type for InputFile: %T\"," ++ x.GoParam ++ ")" ++
  "\n\t\x7d" ++
  "\n\x7d\n"

/-- The template `stringOrReaderBranch` executed on its data. -/
def stringOrReaderBranch (x : readerBranchesData) : String :=
  "\nif " ++ x.GoParam ++ " != nil \x7b" ++
  "\n\tif s, ok := " ++ x.GoParam ++ ".(string); ok \x7b" ++
  "\n\t\tv.Add(\"" ++ x.Parameter ++ "\", s)" ++
  "\n\t\x7d else if r, ok := " ++ x.GoParam ++ ".(io.Reader); ok \x7b" ++
  "\n\t\tv.Add(\"" ++ x.Parameter ++ "\", \"attach://" ++ x.Parameter ++ "\")" ++
  "\n\t\tdata[\"" ++ x.Parameter ++ "\"] = NamedReader\x7bFile: r\x7d" ++
  "\n\t\x7d else if nf, ok := " ++ x.GoParam ++ ".(NamedReader); ok \x7b" ++
  "\n\t\tv.Add(\"" ++ x.Parameter ++ "\", \"attach://" ++ x.Parameter ++ "\")" ++
  "\n\t\tdata[\"" ++ x.Parameter ++ "\"] = nf" ++
  "\n\t\x7d else \x7b" ++
  "\n\t\treturn " ++ x.DefaultReturn ++ ", fmt.Errorf(\"unknown type for InputFile: %T\"," ++ x.GoParam ++ ")" ++
  "\n\t\x7d" ++
  "\n\x7d\n"

/-! ## getArgs -/

/-- One iteration of the loop of `getArgs`; the state is `requiredArgs` and
the builder `optionals`. -/
def getArgsStep (h : Helpers) (st : List String × String) (f : Field) :
    Except String (List String × String) :=
  match h.getPreferredType f with
  | .error err => .error ("failed to get preferred type: " ++ err)
  | .ok fieldType =>
    let goType := h.toGoType fieldType
    if f.Required then
      .ok (st.1 ++ [h.snakeToCamel f.Name ++ " " ++ goType], st.2)
    else
      .ok (st.1, st.2 ++ ("\n// " ++ f.Description)
                  ++ ("\n" ++ (h.snakeToTitle f.Name ++ " " ++ goType)))

/-- The function `getArgs`: the argument list and the definition of the
aggregate of optionals (empty when there is none). -/
def getArgs (h : Helpers) (name : String) (method : MethodDescription) :
    Except String (String × String) :=
  match method.Fields.foldlM (getArgsStep h) ([], "") with
  | .error err => .error err
  | .ok (requiredArgs, optionals) =>
    if optionals.length > 0 then
      let optionalsName := h.snakeToTitle name ++ "Opts"
      let bd := "" ++ ("\ntype " ++ optionalsName ++ " struct \x7b") ++ optionals ++ "\n\x7d"
      .ok (", ".intercalate (requiredArgs ++ ["opts " ++ optionalsName]), bd)
    else
      .ok (", ".intercalate requiredArgs, "")

/-! ## methodArgsToValues -/

/-- One iteration of the loop of `methodArgsToValues`; the state is the flag
`hasData` and the builder `bd`. -/
def methodArgsToValuesStep (h : Helpers) (defaultRetVal : String) (st : Bool × String)
    (f : Field) : Except String (Bool × String) :=
  let hasData := st.1
  let bd := st.2
  let goParam := if !f.Required then "opts." ++ h.snakeToTitle f.Name else h.snakeToCamel f.Name
  match h.getPreferredType f with
  | .error err => .error ("failed to get preferred type: " ++ err)
  | .ok fieldType =>
    let stringer := h.goTypeStringer (h.toGoType fieldType)
    if stringer ≠ "" then
      .ok (hasData, bd ++ ("\nv.Add(\"" ++ f.Name ++ "\", " ++ h.fmtSprintf stringer goParam ++ ")"))
    else if fieldType = "InputFile" then
      let x : readerBranchesData :=
        { GoParam := goParam, DefaultReturn := defaultRetVal, Parameter := f.Name }
      if f.Types.length = 1 then
        .ok (true, bd ++ readerBranch x)
      else
        .ok (true, bd ++ stringOrReaderBranch x)
    else if fieldType = "InputMedia" then
      .ok (true, bd
        ++ ("\ninputMediaBs, err := " ++ goParam ++ ".InputMediaParams(\"" ++ f.Name ++ "\" , data)")
        ++ "\nif err != nil \x7b"
        ++ ("\n\treturn " ++ defaultRetVal ++ ", fmt.Errorf(\"failed to marshal field " ++ f.Name ++ ": %w\", err)")
        ++ "\n\x7d"
        ++ ("\nv.Add(\"" ++ f.Name ++ "\", string(inputMediaBs))"))
    else if fieldType = "Array of InputMedia" then
      .ok (true, bd
        ++ ("\nif " ++ goParam ++ " != nil \x7b")
        ++ "\n\tvar rawList []json.RawMessage"
        ++ ("\n\tfor idx, im := range " ++ goParam ++ " \x7b")
        ++ ("\n\t\tinputMediaBs, err := im.InputMediaParams(\"" ++ f.Name ++ "\" + strconv.Itoa(idx), data)")
        ++ "\n\t\tif err != nil \x7b"
        ++ ("\n\t\t\treturn " ++ defaultRetVal ++ ", fmt.Errorf(\"failed to marshal InputMedia list item %d for field " ++ f.Name ++ ": %w\", idx, err)")
        ++ "\n\t\t\x7d"
        ++ "\n\t\trawList = append(rawList, inputMediaBs)"
        ++ "\n\t\x7d"
        ++ "\n\tbytes, err := json.Marshal(rawList)"
        ++ "\n\tif err != nil \x7b"
        ++ ("\n\t\treturn " ++ defaultRetVal ++ ", fmt.Errorf(\"failed to marshal raw json list of InputMedia for field: " ++ f.Name ++ " %w\", err)")
        ++ "\n\t\x7d"
        ++ ("\n\tv.Add(\"" ++ f.Name ++ "\", string(bytes))")
        ++ "\n\x7d")
    else if fieldType = "ReplyMarkup" then
      .ok (hasData, bd
        ++ ("\n\tbytes, err := " ++ goParam ++ ".ReplyMarkup()")
        ++ "\n\tif err != nil \x7b"
        ++ ("\n\t\treturn " ++ defaultRetVal ++ ", fmt.Errorf(\"failed to marshal field " ++ f.Name ++ ": %w\", err)")
        ++ "\n\t\x7d"
        ++ ("\n\tv.Add(\"" ++ f.Name ++ "\", string(bytes))"))
    else
      let bd := if h.isTgArray fieldType then bd ++ ("\nif " ++ goParam ++ " != nil \x7b") else bd
      let bd := bd
        ++ ("\n\tbytes, err := json.Marshal(" ++ goParam ++ ")")
        ++ "\n\tif err != nil \x7b"
        ++ ("\n\t\treturn " ++ defaultRetVal ++ ", fmt.Errorf(\"failed to marshal field " ++ f.Name ++ ": %w\", err)")
        ++ "\n\t\x7d"
        ++ ("\n\tv.Add(\"" ++ f.Name ++ "\", string(bytes))")
      let bd := if h.isTgArray fieldType then bd ++ "\n\x7d" else bd
      .ok (hasData, bd)

/-- The function `methodArgsToValues`: the value-collection text and the flag
`hasData`. -/
def methodArgsToValues (h : Helpers) (method : MethodDescription) (defaultRetVal : String) :
    Except String (String × Bool) :=
  match method.Fields.foldlM (methodArgsToValuesStep h defaultRetVal) (false, "") with
  | .error err => .error err
  | .ok (hasData, bd) => .ok (bd, hasData)

/-! ## getRetVarName -/

/-- The loop `for strings.HasPrefix(retType, "*") { retType = strings.TrimPrefix(retType, "*") }`. -/
def trimStars : List Char → List Char
  | '*' :: cs => trimStars cs
  | cs => cs

/-- The loop `for strings.HasPrefix(retType, "[]") { retType = strings.TrimPrefix(retType, "[]") }`. -/
def trimSliceMarks : List Char → List Char
  | '[' :: ']' :: cs => trimSliceMarks cs
  | cs => cs

/-- The expression `strings.ToLower(s[:1])` for a non-empty `s` whose first
character is `c`.  The slice is the first byte: for an ASCII character it is
that character, lower-cased; for any other character it is the lead byte of
its UTF-8 encoding, an invalid string that `strings.ToLower` maps to the
replacement character U+FFFD. -/
def lowerFirstByte (c : Char) : String :=
  if c.toNat < 128 then String.singleton c.toLower else String.singleton (Char.ofNat 0xFFFD)

/-- The function `getRetVarName`; `none` is the panic of `retType[:1]` on an
empty string. -/
def getRetVarName (retType : String) : Option String :=
  match trimSliceMarks (trimStars retType.data) with
  | [] => none
  | c :: _ => some (lowerFirstByte c)

/-! ## generateMethodDef -/

/-- The function `generateMethodDef`. -/
def generateMethodDef (h : Helpers) (d : APIDescription) (tgMethod : MethodDescription)
    (tgMethodName : String) : Result String :=
  match tgMethod.Returns with
  | [] => .panic "index out of range [0] with length 0"
  | ret0 :: _ =>
    let retType := h.toGoType ret0
    let retType := if h.isTgType d.Types retType then "*" ++ retType else retType
    let defaultRetVal := h.getDefaultReturnVal retType
    match getArgs h tgMethodName tgMethod with
    | .error err => .error ("failed to get args for method " ++ tgMethodName ++ ": " ++ err)
    | .ok (args, optionalsStruct) =>
      let method := ""
      let method := if optionalsStruct ≠ "" then method ++ ("\n" ++ optionalsStruct) else method
      let method := tgMethod.Description.foldl (fun b d => b ++ ("\n// " ++ d)) method
      let method := method ++ ("\n// " ++ tgMethod.Href)
      let method := method ++ ("\nfunc (bot Bot) " ++ h.stringsTitle tgMethodName ++ "(" ++ args
        ++ ") (" ++ retType ++ ", error) \x7b")
      match methodArgsToValues h tgMethod defaultRetVal with
      | .error err =>
        .error ("failed to generate url values for method " ++ tgMethodName ++ ": " ++ err)
      | .ok (valueGen, hasData) =>
        let method := method ++ "\n\tv := urlLib.Values\x7b\x7d"
        let method := if hasData then method ++ "\n\tdata := map[string]NamedReader\x7b\x7d" else method
        let method := method ++ valueGen
        let method := method ++ "\n"
        let method :=
          if hasData then method ++ ("\nr, err := bot.Post(\"" ++ tgMethodName ++ "\", v, data)")
          else method ++ ("\nr, err := bot.Get(\"" ++ tgMethodName ++ "\", v)")
        let method := method ++ "\n\tif err != nil \x7b"
        let method := method ++ ("\n\t\treturn " ++ defaultRetVal ++ ", err")
        let method := method ++ "\n\t\x7d"
        let method := method ++ "\n"
        match getRetVarName retType with
        | none => .panic "slice bounds out of range [:1] with length 0"
        | some retVarName =>
          let isPointer := retType.data.head? = some '*'
          let retVarType := if isPointer then String.mk (retType.data.dropWhile (· == '*')) else retType
          let addr := if isPointer then "&" else ""
          let method := method ++ ("\nvar " ++ retVarName ++ " " ++ retVarType)
          let method := method ++ ("\nreturn " ++ addr ++ retVarName ++ ", json.Unmarshal(r, &"
            ++ retVarName ++ ")")
          let method := method ++ "\n\x7d"
          .ok method

/-! ## generateMethods -/

/-- The byte order of `sort.Strings`: lexicographic on the characters. -/
def strLe (a b : String) : Prop := a.toList ≤ b.toList

instance strLe.decidable : DecidableRel strLe :=
  fun a b => inferInstanceAs (Decidable (a.toList ≤ b.toList))

instance strLe.isTotal : IsTotal String strLe := ⟨fun a b => le_total a.toList b.toList⟩

instance strLe.isTrans : IsTrans String strLe :=
  ⟨fun a _ _ hab hbc => le_trans (a := a.toList) hab hbc⟩

instance strLe.isAntisymm : IsAntisymm String strLe :=
  ⟨fun a _ hab hba => String.ext (le_antisymm (a := a.toList) hab hba)⟩

/-- The call `sort.Strings(methods)`. -/
def sortStrings (l : List String) : List String := List.insertionSort strLe l

/-- The fixed header written first. -/
def preamble : String :=
  "\n// THIS FILE IS AUTOGENERATED. DO NOT EDIT." ++
  "\n// Regen by running 'go generate' in the repo root." ++
  "\n" ++
  "\npackage gen" ++
  "\nimport (" ++
  "\n\turlLib \"net/url\" // renamed to avoid clashes with url vars" ++
  "\n\t\"encoding/json\"" ++
  "\n\t\"strconv\"" ++
  "\n\t\"fmt\"" ++
  "\n\t\"io\"" ++
  "\n)\n"

/-- One iteration of the loop over the sorted method names; the state is the
builder `file`. -/
def generateMethodsStep (h : Helpers) (d : APIDescription) (file : String)
    (tgMethodName : String) : Result String :=
  let tgMethod := methodsIndex d.Methods tgMethodName
  match generateMethodDef h d tgMethod tgMethodName with
  | .panic p => .panic p
  | .error err =>
    .error ("failed to generate method definition of " ++ tgMethodName ++ ": " ++ err)
  | .ok method => .ok (file ++ method)

/-- The loop over the sorted method names. -/
def generateMethodsLoop (h : Helpers) (d : APIDescription) : List String → String → Result String
  | [], file => .ok file
  | n :: ns, file =>
    match generateMethodsStep h d file n with
    | .ok file => generateMethodsLoop h d ns file
    | .error e => .error e
    | .panic p => .panic p

/-- What a run of `generateMethods` does: the calls of `writeGenToFile` it
made (text and path) and its outcome. -/
structure Run where
  writes : List (String × String)
  outcome : Result Unit
deriving DecidableEq, Repr

/-- The function `generateMethods`. -/
def generateMethods (h : Helpers) (d : APIDescription) : Run :=
  let file := "" ++ preamble
  let methods := d.Methods.map Prod.fst
  let methods := sortStrings methods
  match generateMethodsLoop h d methods file with
  | .panic p => { writes := [], outcome := .panic p }
  | .error e => { writes := [], outcome := .error e }
  | .ok file =>
    { writes := [(file, "gen/gen_methods.go")],
      outcome := match h.writeGenToFile file "gen/gen_methods.go" with
        | none => .ok ()
        | some e => .error e }


/-! ## Derived notions used to state the properties -/

/-- The preferred type of a field that resolves (the empty name otherwise). -/
def preferredType (h : Helpers) (f : Field) : String :=
  match h.getPreferredType f with
  | .ok t => t
  | .error _ => ""

/-- Whether `getPreferredType` succeeds on the field. -/
def resolves (h : Helpers) (f : Field) : Bool :=
  match h.getPreferredType f with
  | .ok _ => true
  | .error _ => false

/-- The error `getPreferredType` reports on the field (empty when it succeeds). -/
def resolveError (h : Helpers) (f : Field) : String :=
  match h.getPreferredType f with
  | .ok _ => ""
  | .error e => e

/-- Whether the field has a primitive string conversion. -/
def hasStringer (h : Helpers) (f : Field) : Bool :=
  h.goTypeStringer (h.toGoType (preferredType h f)) ≠ ""

/-- The multipart condition on one field: no primitive string conversion, and
the preferred type is InputFile, InputMedia or Array of InputMedia. -/
def needsData (h : Helpers) (f : Field) : Bool :=
  !hasStringer h f &&
    (preferredType h f = "InputFile" || preferredType h f = "InputMedia"
      || preferredType h f = "Array of InputMedia")

/-- The expression through which the emitted body reads the field. -/
def goParamOf (h : Helpers) (f : Field) : String :=
  if f.Required then h.snakeToCamel f.Name else "opts." ++ h.snakeToTitle f.Name

/-- The text one field contributes to the body: what an iteration of the loop
of `methodArgsToValues` appends to an empty builder. -/
def fragmentOf (h : Helpers) (defaultRetVal : String) (f : Field) : String :=
  match methodArgsToValuesStep h defaultRetVal (false, "") f with
  | .ok st => st.2
  | .error _ => ""

/-- Concatenation of a list of texts. -/
def concatAll (l : List String) : String := l.foldl (· ++ ·) ""

/-- The parameter a required field contributes to the signature. -/
def requiredArg (h : Helpers) (f : Field) : String :=
  h.snakeToCamel f.Name ++ " " ++ h.toGoType (preferredType h f)

/-- The two lines an optional field contributes to the aggregate: the comment
with the description, then the member. -/
def optionalLines (h : Helpers) (f : Field) : String :=
  "\n// " ++ f.Description ++ "\n" ++ h.snakeToTitle f.Name ++ " " ++ h.toGoType (preferredType h f)

/-! ## The shape of the emitted text -/

/-- The required fields of a method, in declaration order. -/
def requiredFields (m : MethodDescription) : List Field := m.Fields.filter (fun f => f.Required)

/-- The optional fields of a method, in declaration order. -/
def optionalFields (m : MethodDescription) : List Field := m.Fields.filter (fun f => !f.Required)

/-- Name of the aggregate of optionals of a method. -/
def aggregateName (h : Helpers) (name : String) : String := h.snakeToTitle name ++ "Opts"

/-- Definition of the aggregate of optionals of a method. -/
def aggregateDef (h : Helpers) (name : String) (m : MethodDescription) : String :=
  "\ntype " ++ aggregateName h name ++ " struct \x7b"
    ++ concatAll ((optionalFields m).map (optionalLines h)) ++ "\n\x7d"

/-- The return type of the emitted function, from the first entry of `Returns`. -/
def retTypeOf (h : Helpers) (d : APIDescription) (ret0 : String) : String :=
  if h.isTgType d.Types (h.toGoType ret0) then "*" ++ h.toGoType ret0 else h.toGoType ret0

/-- The documentation block of the emitted function. -/
def docBlock (m : MethodDescription) : String :=
  concatAll (m.Description.map (fun d => "\n// " ++ d)) ++ "\n// " ++ m.Href

/-- The signature line of the emitted function. -/
def signatureLine (h : Helpers) (name args retType : String) : String :=
  "\nfunc (bot Bot) " ++ h.stringsTitle name ++ "(" ++ args ++ ") (" ++ retType ++ ", error) \x7b"

/-- The declaration of the multipart sink, present on `hasData`. -/
def sinkDecl (hasData : Bool) : String :=
  if hasData then "\n\tdata := map[string]NamedReader\x7b\x7d" else ""

/-- The transport call: multipart on `hasData`, URL form otherwise. -/
def transportCall (name : String) (hasData : Bool) : String :=
  if hasData then "\nr, err := bot.Post(\"" ++ name ++ "\", v, data)"
  else "\nr, err := bot.Get(\"" ++ name ++ "\", v)"

/-- The return on a transport failure. -/
def transportCheck (defaultRetVal : String) : String :=
  "\n\tif err != nil \x7b" ++ "\n\t\treturn " ++ defaultRetVal ++ ", err" ++ "\n\t\x7d" ++ "\n"

/-- The epilogue: the result holder and the final return. -/
def epilogue (retType retVarName : String) : String :=
  if retType.data.head? = some '*' then
    "\nvar " ++ retVarName ++ " " ++ String.mk (retType.data.dropWhile (· == '*'))
      ++ "\nreturn &" ++ retVarName ++ ", json.Unmarshal(r, &" ++ retVarName ++ ")" ++ "\n\x7d"
  else
    "\nvar " ++ retVarName ++ " " ++ retType
      ++ "\nreturn " ++ retVarName ++ ", json.Unmarshal(r, &" ++ retVarName ++ ")" ++ "\n\x7d"

/-- The multipart condition on a method: some field has no primitive string
conversion and prefers InputFile, InputMedia or Array of InputMedia. -/
def multipart (h : Helpers) (m : MethodDescription) : Prop :=
  ∃ f ∈ m.Fields, hasStringer h f = false ∧
    (preferredType h f = "InputFile" ∨ preferredType h f = "InputMedia"
      ∨ preferredType h f = "Array of InputMedia")

instance multipart.decidable (h : Helpers) (m : MethodDescription) : Decidable (multipart h m) := by
  unfold multipart
  infer_instance

/-- The argument list of the emitted signature for a method whose fields resolve. -/
def argList (h : Helpers) (name : String) (m : MethodDescription) : String :=
  if optionalFields m = [] then ", ".intercalate ((requiredFields m).map (requiredArg h))
  else ", ".intercalate ((requiredFields m).map (requiredArg h) ++ ["opts " ++ aggregateName h name])

/-- The characters after the last line break of a text: the last line. -/
def lastLine : List Char → List Char
  | [] => []
  | c :: cs => if '\n' ∈ cs then lastLine cs else if c = '\n' then cs else c :: cs

/-! ## A sample instance of the helpers -/

/-- Upper-cases the character after every underscore and drops the
underscore; the flag says whether the next character is upper-cased. -/
def sampleSnake : Bool → List Char → List Char
  | _, [] => []
  | up, c :: cs =>
    if c = '_' then sampleSnake true cs
    else (if up then c.toUpper else c) :: sampleSnake false cs

/-- Upper-cases the first letter of every word (ASCII). -/
def sampleTitle : Bool → List Char → List Char
  | _, [] => []
  | sep, c :: cs =>
    (if sep then c.toUpper else c) :: sampleTitle (!(c.isAlphanum || c = '_')) cs

/-- Replaces the first verb `%s` of a format by the operand. -/
def sampleSprintf (arg : List Char) : List Char → List Char
  | [] => []
  | [c] => [c]
  | c :: c2 :: cs =>
    if c = '%' ∧ c2 = 's' then arg ++ cs else c :: sampleSprintf arg (c2 :: cs)

/-- Go type of a schema type name that is not an array. -/
def sampleBaseType (s : String) : String :=
  if s = "Integer" then "int64"
  else if s = "Float" then "float64"
  else if s = "Boolean" then "bool"
  else if s = "String" then "string"
  else s

/-- Go type of a schema type name: `Array of T` is a slice of `T`. -/
def sampleToGoType : Nat → List Char → String
  | 0, s => sampleBaseType (String.mk s)
  | n + 1, s =>
    if "Array of ".data.isPrefixOf s then "[]" ++ sampleToGoType n (s.drop 9)
    else sampleBaseType (String.mk s)

/-- Zero value of a Go type: nil for references and slices. -/
def sampleDefaultReturnVal (t : String) : String :=
  if t.data.head? = some '*' ∨ "[]".data.isPrefixOf t.data then "nil"
  else if t = "int64" ∨ t = "float64" then "0"
  else if t = "bool" then "false"
  else if t = "string" then "\"\""
  else t ++ "\x7b\x7d"

/-- Preferred type of a field: the only candidate, or InputFile (Integer)
before String; a field without a usable candidate is an error naming the field. -/
def samplePreferredType (f : Field) : Except String String :=
  match f.Types with
  | [] => .error ("no type for field " ++ f.Name)
  | [t] => .ok t
  | [a, b] =>
    if a = "InputFile" ∧ b = "String" then .ok "InputFile"
    else if a = "Integer" ∧ b = "String" then .ok "Integer"
    else if f.Name = "reply_markup" then .ok "ReplyMarkup"
    else .error ("unable to choose one type for field " ++ f.Name)
  | _ =>
    if f.Name = "reply_markup" then .ok "ReplyMarkup"
    else .error ("unable to choose one type for field " ++ f.Name)

/-- String conversion of a Go type; empty when there is none. -/
def sampleStringer (t : String) : String :=
  if t = "int64" then "strconv.FormatInt(%s, 10)"
  else if t = "float64" then "strconv.FormatFloat(%s, 'f', -1, 64)"
  else if t = "bool" then "strconv.FormatBool(%s)"
  else if t = "string" then "%s"
  else ""

/-- Modelled from the spec: the resolver and naming helpers (`toGoType`,
`isTgType`, `getDefaultReturnVal`, `getPreferredType`, `snakeToCamel`,
`snakeToTitle`, `goTypeStringer`, `isTgArray`, `writeGenToFile`) are not part
of methods.go.  This instance follows what the spec says of them: a defined API
object is a key of `Types`, an array type starts with `Array of `, Integer
resolves to `int64` with a string conversion, `chat_id` becomes `chatId` and
`ChatId`, the zero value of a reference is `nil`, and a union of InputFile with
String prefers InputFile.  It serves to evaluate the generator on concrete
schemas. -/
def sampleHelpers : Helpers where
  toGoType := fun s => sampleToGoType s.length s.data
  isTgType := fun types t => (types.lookup t).isSome
  getDefaultReturnVal := sampleDefaultReturnVal
  getPreferredType := samplePreferredType
  snakeToCamel := fun s => String.mk (sampleSnake false s.data)
  snakeToTitle := fun s => String.mk (sampleSnake true s.data)
  goTypeStringer := sampleStringer
  isTgArray := fun s => "Array of ".data.isPrefixOf s.data
  writeGenToFile := fun _ _ => none
  stringsTitle := fun s => String.mk (sampleTitle true s.data)
  fmtSprintf := fun fmt arg => String.mk (sampleSprintf arg.data fmt.data)

/-- A sample schema: the types `Message` and `User`. -/
def sampleTypes : List (String × List Field) := [("Message", []), ("User", [])]

/-- The method `getMe`: no field, returns `User`. -/
def getMe : MethodDescription :=
  { Fields := [], Returns := ["User"],
    Description := ["A simple method for testing your bot's authentication token."],
    Href := "https://core.telegram.org/bots/api#getme" }

/-- The field `chat_id` of the sample methods. -/
def chatIdField : Field :=
  { Name := "chat_id", Types := ["Integer"], Required := true, Description := "Target chat" }

/-- The field `photo`: a file to upload or a string. -/
def photoField : Field :=
  { Name := "photo", Types := ["InputFile", "String"], Required := false,
    Description := "Photo to send" }

/-- The method `sendPhoto` with a required `chat_id` and an optional `photo`. -/
def sendPhoto : MethodDescription :=
  { Fields := [chatIdField, photoField], Returns := ["Message"],
    Description := ["Use this method to send photos."],
    Href := "https://core.telegram.org/bots/api#sendphoto" }

/-- The field `media` of `sendMediaGroup`. -/
def mediaField : Field :=
  { Name := "media", Types := ["Array of InputMedia"], Required := true,
    Description := "Media to send" }

/-- The method `sendMediaGroup`. -/
def sendMediaGroup : MethodDescription :=
  { Fields := [chatIdField, mediaField], Returns := ["Array of Message"],
    Description := ["Use this method to send a group of photos."],
    Href := "https://core.telegram.org/bots/api#sendmediagroup" }

/-- The method `getChat`: one required field, returns `Chat`. -/
def getChat : MethodDescription :=
  { Fields := [chatIdField], Returns := ["Chat"], Description := [],
    Href := "https://core.telegram.org/bots/api#getchat" }

/-- A sample schema with three methods, listed out of order. -/
def sampleAPI : APIDescription :=
  { Types := sampleTypes,
    Methods := [("sendPhoto", sendPhoto), ("getMe", getMe), ("getChat", getChat)] }

/-- The body of the emitted function: the form values, the sink on
`hasData`, the fragments of the fields, the transport call with its check, and
the epilogue. -/
def methodBody (h : Helpers) (d : APIDescription) (m : MethodDescription) (name ret0 v : String) :
    String :=
  "\n\tv := urlLib.Values\x7b\x7d"
    ++ sinkDecl (m.Fields.any (needsData h))
    ++ concatAll (m.Fields.map (fragmentOf h (h.getDefaultReturnVal (retTypeOf h d ret0))))
    ++ "\n"
    ++ transportCall name (m.Fields.any (needsData h))
    ++ transportCheck (h.getDefaultReturnVal (retTypeOf h d ret0))
    ++ epilogue (retTypeOf h d ret0) v

/-- The method `sendPhoto` with an optional `caption` whose description spans two lines. -/
def sendPhotoCaptioned : MethodDescription :=
  { Fields := [chatIdField,
      { Name := "caption", Types := ["String"], Required := false,
        Description := "Photo caption,\n0-1024 characters" }],
    Returns := ["Message"], Description := [],
    Href := "https://core.telegram.org/bots/api#sendphoto" }

/-- The text `generateMethodDef` returns for the method stored under a name
(empty when it does not return one). -/
def methodText (h : Helpers) (d : APIDescription) (n : String) : String :=
  match generateMethodDef h d (methodsIndex d.Methods n) n with
  | .ok t => t
  | _ => ""

/-- Whether `generateMethodDef` fails (error or panic) for the method stored under a name. -/
def methodFails (h : Helpers) (d : APIDescription) (n : String) : Bool :=
  !(generateMethodDef h d (methodsIndex d.Methods n) n).isOk

/-- The sample schema with its methods visited in another order. -/
def sampleAPIReordered : APIDescription :=
  { Types := sampleTypes,
    Methods := [("getChat", getChat), ("sendPhoto", sendPhoto), ("getMe", getMe)] }

/-- A method with a field whose three candidate types give no preferred type. -/
def sendDice : MethodDescription :=
  { Fields := [chatIdField,
      { Name := "emoji", Types := ["Dice", "Integer", "Boolean"], Required := false,
        Description := "Emoji on which the dice throw animation is based" }],
    Returns := ["Message"], Description := [],
    Href := "https://core.telegram.org/bots/api#senddice" }

/-- A schema with one method that cannot be generated and two that can. -/
def sampleAPIBroken : APIDescription :=
  { Types := sampleTypes,
    Methods := [("sendPhoto", sendPhoto), ("sendDice", sendDice), ("getMe", getMe)] }

/-! ## The text of each strategy -/

/-- Text of the primitive strategy. -/
def stringerText (h : Helpers) (goParam name stringer : String) : String :=
  "\nv.Add(\"" ++ name ++ "\", " ++ h.fmtSprintf stringer goParam ++ ")"

/-- Text of the strategy for a single InputMedia. -/
def inputMediaText (goParam defaultRetVal name : String) : String :=
  "\ninputMediaBs, err := " ++ goParam ++ ".InputMediaParams(\"" ++ name ++ "\" , data)"
    ++ "\nif err != nil \x7b"
    ++ "\n\treturn " ++ defaultRetVal ++ ", fmt.Errorf(\"failed to marshal field " ++ name ++ ": %w\", err)"
    ++ "\n\x7d"
    ++ "\nv.Add(\"" ++ name ++ "\", string(inputMediaBs))"

/-- Text of the strategy for an array of InputMedia. -/
def inputMediaArrayText (goParam defaultRetVal name : String) : String :=
  "\nif " ++ goParam ++ " != nil \x7b"
    ++ "\n\tvar rawList []json.RawMessage"
    ++ "\n\tfor idx, im := range " ++ goParam ++ " \x7b"
    ++ "\n\t\tinputMediaBs, err := im.InputMediaParams(\"" ++ name ++ "\" + strconv.Itoa(idx), data)"
    ++ "\n\t\tif err != nil \x7b"
    ++ "\n\t\t\treturn " ++ defaultRetVal ++ ", fmt.Errorf(\"failed to marshal InputMedia list item %d for field " ++ name ++ ": %w\", idx, err)"
    ++ "\n\t\t\x7d"
    ++ "\n\t\trawList = append(rawList, inputMediaBs)"
    ++ "\n\t\x7d"
    ++ "\n\tbytes, err := json.Marshal(rawList)"
    ++ "\n\tif err != nil \x7b"
    ++ "\n\t\treturn " ++ defaultRetVal ++ ", fmt.Errorf(\"failed to marshal raw json list of InputMedia for field: " ++ name ++ " %w\", err)"
    ++ "\n\t\x7d"
    ++ "\n\tv.Add(\"" ++ name ++ "\", string(bytes))"
    ++ "\n\x7d"

/-- Text of the strategy for ReplyMarkup. -/
def replyMarkupText (goParam defaultRetVal name : String) : String :=
  "\n\tbytes, err := " ++ goParam ++ ".ReplyMarkup()"
    ++ "\n\tif err != nil \x7b"
    ++ "\n\t\treturn " ++ defaultRetVal ++ ", fmt.Errorf(\"failed to marshal field " ++ name ++ ": %w\", err)"
    ++ "\n\t\x7d"
    ++ "\n\tv.Add(\"" ++ name ++ "\", string(bytes))"

/-- Text of the generic strategy; `guarded` says whether the nil guard encloses it. -/
def genericText (guarded : Bool) (goParam defaultRetVal name : String) : String :=
  (if guarded then "\nif " ++ goParam ++ " != nil \x7b" else "")
    ++ "\n\tbytes, err := json.Marshal(" ++ goParam ++ ")"
    ++ "\n\tif err != nil \x7b"
    ++ "\n\t\treturn " ++ defaultRetVal ++ ", fmt.Errorf(\"failed to marshal field " ++ name ++ ": %w\", err)"
    ++ "\n\t\x7d"
    ++ "\n\tv.Add(\"" ++ name ++ "\", string(bytes))"
    ++ (if guarded then "\n\x7d" else "")

/-- The text of the strategy chosen for a field, by the precedence of the loop
of `methodArgsToValues`. -/
def strategyText (h : Helpers) (defaultRetVal : String) (f : Field) : String :=
  if hasStringer h f then
    stringerText h (goParamOf h f) f.Name (h.goTypeStringer (h.toGoType (preferredType h f)))
  else if preferredType h f = "InputFile" then
    (if f.Types.length = 1 then
      readerBranch { GoParam := goParamOf h f, DefaultReturn := defaultRetVal, Parameter := f.Name }
     else
      stringOrReaderBranch
        { GoParam := goParamOf h f, DefaultReturn := defaultRetVal, Parameter := f.Name })
  else if preferredType h f = "InputMedia" then inputMediaText (goParamOf h f) defaultRetVal f.Name
  else if preferredType h f = "Array of InputMedia" then
    inputMediaArrayText (goParamOf h f) defaultRetVal f.Name
  else if preferredType h f = "ReplyMarkup" then replyMarkupText (goParamOf h f) defaultRetVal f.Name
  else genericText (h.isTgArray (preferredType h f)) (goParamOf h f) defaultRetVal f.Name

/-! ## Go slice values, to read the emitted guards -/

/-- A Go slice value: `none` is the nil slice, `some xs` a slice that is not
nil and holds the elements `xs`. -/
def GoSlice : Type := Option (List String)

/-- The Go expression `len(s)`. -/
def GoSlice.len : GoSlice → Nat
  | none => 0
  | some xs => xs.length

/-- The Go condition `s != nil`. -/
def GoSlice.notNil : GoSlice → Bool
  | none => false
  | some _ => true

/-- The method `sendMediaGroup` reduced to its field `media`. -/
def sendMediaOnly : MethodDescription :=
  { Fields := [mediaField], Returns := ["Array of Message"], Description := [],
    Href := "https://core.telegram.org/bots/api#sendmediagroup" }

/-- A field that accepts exactly the type InputFile. -/
def stickerField : Field :=
  { Name := "sticker", Types := ["InputFile"], Required := true, Description := "Sticker file" }

/-! ## The message handler (ext/handlers/message.go) -/

namespace Handlers

/-- The fields of `ext.Context` that `CheckUpdate` reads; a nil pointer is `none`. -/
structure Context (Msg : Type) where
  Message : Option Msg
  EditedMessage : Option Msg
  ChannelPost : Option Msg
  EditedChannelPost : Option Msg
  BusinessMessage : Option Msg
  EditedBusinessMessage : Option Msg

/-- The handler `Message`; a nil `Filter` is `none`. -/
structure Message (Msg Resp : Type) where
  AllowEdited : Bool
  AllowChannel : Bool
  AllowBusiness : Bool
  Filter : Option (Msg → Bool)
  Response : Resp

/-- The function `NewMessage`; `AllowBusiness`, not listed in the literal, has
its zero value. -/
def NewMessage {Msg Resp : Type} (f : Option (Msg → Bool)) (r : Resp) : Message Msg Resp :=
  { AllowEdited := false, AllowChannel := false, AllowBusiness := false, Filter := f,
    Response := r }

/-- The method `SetAllowEdited`. -/
def Message.SetAllowEdited {Msg Resp : Type} (m : Message Msg Resp) (allow : Bool) :
    Message Msg Resp :=
  { m with AllowEdited := allow }

/-- The method `SetAllowChannel`. -/
def Message.SetAllowChannel {Msg Resp : Type} (m : Message Msg Resp) (allow : Bool) :
    Message Msg Resp :=
  { m with AllowChannel := allow }

/-- The method `SetAllowBusiness`. -/
def Message.SetAllowBusiness {Msg Resp : Type} (m : Message Msg Resp) (allow : Bool) :
    Message Msg Resp :=
  { m with AllowBusiness := allow }

/-- The expression `m.Filter == nil || m.Filter(msg)`. -/
def Message.verdict {Msg Resp : Type} (m : Message Msg Resp) (msg : Msg) : Bool :=
  match m.Filter with
  | none => true
  | some f => f msg

/-- The method `CheckUpdate`. -/
def Message.CheckUpdate {Msg Resp : Type} (m : Message Msg Resp) (ctx : Context Msg) : Bool :=
  match ctx.Message with
  | some msg => m.verdict msg
  | none =>
    match m.AllowEdited, ctx.EditedMessage with
    | true, some msg => m.verdict msg
    | _, _ =>
      match m.AllowChannel, ctx.ChannelPost with
      | true, some msg => m.verdict msg
      | _, _ =>
        match m.AllowChannel && m.AllowEdited, ctx.EditedChannelPost with
        | true, some msg => m.verdict msg
        | _, _ =>
          match m.AllowBusiness, ctx.BusinessMessage with
          | true, some msg => m.verdict msg
          | _, _ =>
            match m.AllowBusiness && m.AllowEdited, ctx.EditedBusinessMessage with
            | true, some msg => m.verdict msg
            | _, _ => false

/-- The candidates of an update with their eligibility for a handler, in the
order in which `CheckUpdate` looks at them. -/
def candidates {Msg Resp : Type} (m : Message Msg Resp) (ctx : Context Msg) :
    List (Bool × Option Msg) :=
  [(true, ctx.Message),
   (m.AllowEdited, ctx.EditedMessage),
   (m.AllowChannel, ctx.ChannelPost),
   (m.AllowChannel && m.AllowEdited, ctx.EditedChannelPost),
   (m.AllowBusiness, ctx.BusinessMessage),
   (m.AllowBusiness && m.AllowEdited, ctx.EditedBusinessMessage)]

/-- The first candidate that is eligible and present. -/
def firstCandidate {Msg : Type} : List (Bool × Option Msg) → Option Msg
  | [] => none
  | (true, some msg) :: _ => some msg
  | _ :: rest => firstCandidate rest

/-- An update that carries only an edited message, here the number 7. -/
def editedOnly : Context Nat :=
  { Message := none, EditedMessage := some 7, ChannelPost := none, EditedChannelPost := none,
    BusinessMessage := none, EditedBusinessMessage := none }

end Handlers

/-! ## The in-memory conversation storage (ext/handlers/conversation/in_memory.go)

The methods run one at a time: the lock is not modelled.  Every method
returns the storage it leaves behind together with its results. -/

namespace Conversation

/-- The error `ErrKeyNotFound`, by its message. -/
def ErrKeyNotFound : String := "conversation key not found"

/-- The statement `m[key] = state` on a map. -/
def mapSet {State : Type} (m : List (String × State)) (key : String) (state : State) :
    List (String × State) :=
  (key, state) :: m.filter (fun p => p.1 != key)

/-- The statement `delete(m, key)` on a map. -/
def mapDelete {State : Type} (m : List (String × State)) (key : String) :
    List (String × State) :=
  m.filter (fun p => p.1 != key)

/-- The storage `InMemoryStorage`; a nil map is `none`. -/
structure InMemoryStorage (Strategy State : Type) where
  keyStrategy : Strategy
  conversations : Option (List (String × State))

/-- The function `NewInMemoryStorage`. -/
def NewInMemoryStorage {Strategy State : Type} (strategy : Strategy) :
    InMemoryStorage Strategy State :=
  { keyStrategy := strategy, conversations := some [] }

/-- The method `Get`; `StateKey` is the key derivation, defined outside this file. -/
def InMemoryStorage.Get {Ctx Strategy State : Type}
    (StateKey : Ctx → Strategy → Except String String)
    (c : InMemoryStorage Strategy State) (ctx : Ctx) :
    InMemoryStorage Strategy State × Option State × Option String :=
  match StateKey ctx c.keyStrategy with
  | .error err => (c, none, some err)
  | .ok key =>
    match c.conversations with
    | none => (c, none, some ErrKeyNotFound)
    | some m =>
      match m.lookup key with
      | none => (c, none, some ErrKeyNotFound)
      | some s => (c, some s, none)

/-- The method `Set`. -/
def InMemoryStorage.Set {Ctx Strategy State : Type}
    (StateKey : Ctx → Strategy → Except String String)
    (c : InMemoryStorage Strategy State) (ctx : Ctx) (state : State) :
    InMemoryStorage Strategy State × Option String :=
  match StateKey ctx c.keyStrategy with
  | .error err => (c, some err)
  | .ok key =>
    let m := match c.conversations with
      | none => []
      | some m => m
    ({ c with conversations := some (mapSet m key state) }, none)

/-- The method `Delete`. -/
def InMemoryStorage.Delete {Ctx Strategy State : Type}
    (StateKey : Ctx → Strategy → Except String String)
    (c : InMemoryStorage Strategy State) (ctx : Ctx) :
    InMemoryStorage Strategy State × Option String :=
  match StateKey ctx c.keyStrategy with
  | .error err => (c, some err)
  | .ok key =>
    match c.conversations with
    | none => (c, none)
    | some m => ({ c with conversations := some (mapDelete m key) }, none)

/-- The state stored under a key: nothing in a nil map. -/
def InMemoryStorage.stored {Strategy State : Type} (c : InMemoryStorage Strategy State)
    (key : String) : Option State :=
  match c.conversations with
  | none => none
  | some m => m.lookup key

/-- A key derivation for the examples: the context is the chat identifier,
and the empty one has no key. -/
def sampleStateKey (ctx : String) (_ : Unit) : Except String String :=
  if ctx = "" then .error "missing chat" else .ok ("chat:" ++ ctx)

/-- A storage whose map is nil. -/
def nilStorage : InMemoryStorage Unit String := { keyStrategy := (), conversations := none }

end Conversation

/-- The text of the strategy chosen for a field when the field is read
through the expression `p`. -/
def strategyTextWith (h : Helpers) (defaultRetVal : String) (f : Field) (p : String) : String :=
  if hasStringer h f then
    stringerText h p f.Name (h.goTypeStringer (h.toGoType (preferredType h f)))
  else if preferredType h f = "InputFile" then
    (if f.Types.length = 1 then
      readerBranch { GoParam := p, DefaultReturn := defaultRetVal, Parameter := f.Name }
     else
      stringOrReaderBranch { GoParam := p, DefaultReturn := defaultRetVal, Parameter := f.Name })
  else if preferredType h f = "InputMedia" then inputMediaText p defaultRetVal f.Name
  else if preferredType h f = "Array of InputMedia" then inputMediaArrayText p defaultRetVal f.Name
  else if preferredType h f = "ReplyMarkup" then replyMarkupText p defaultRetVal f.Name
  else genericText (h.isTgArray (preferredType h f)) p defaultRetVal f.Name

/-- A field of an object type that is no array. -/
def permissionsField : Field :=
  { Name := "permissions", Types := ["ChatPermissions"], Required := true,
    Description := "New default chat permissions" }

/-- A field of an array type. -/
def entitiesField : Field :=
  { Name := "caption_entities", Types := ["Array of MessageEntity"], Required := false,
    Description := "Special entities of the caption" }

/-- The type name `getRetVarName` takes the first byte of: the name without
its leading `*` and then without its leading `[]`. -/
def baseTypeName (retType : String) : List Char := trimSliceMarks (trimStars retType.data)

/-- The type name with all its leading `*` and `[]` removed, in any order. -/
def stripAll : List Char → List Char
  | '*' :: cs => stripAll cs
  | '[' :: ']' :: cs => stripAll cs
  | cs => cs

/-- The field `link_preview_options` of `sendMessage`. -/
def linkPreviewField : Field :=
  { Name := "link_preview_options", Types := ["LinkPreviewOptions"], Required := false,
    Description := "Link preview generation options for the message" }

/-- The field `reply_parameters` of `sendMessage`. -/
def replyParametersField : Field :=
  { Name := "reply_parameters", Types := ["ReplyParameters"], Required := false,
    Description := "Description of the message to reply to" }

/-- The method `sendMessage` with two optional fields of object types. -/
def sendMessage : MethodDescription :=
  { Fields := [chatIdField, linkPreviewField, replyParametersField], Returns := ["Message"],
    Description := ["Use this method to send text messages."],
    Href := "https://core.telegram.org/bots/api#sendmessage" }

/-- The required field `chat_id` of type Integer, with any description. -/
def chatIdOf (description : String) : Field :=
  { Name := "chat_id", Types := ["Integer"], Required := true, Description := description }

/-- The optional field `photo` of types InputFile and String, with any description. -/
def photoOf (description : String) : Field :=
  { Name := "photo", Types := ["InputFile", "String"], Required := false,
    Description := description }

/-- The method `sendPhoto` with the fields `chat_id` and `photo`. -/
def sendPhotoOf (dc dp : String) (returns description : List String) (href : String) :
    MethodDescription :=
  { Fields := [chatIdOf dc, photoOf dp], Returns := returns, Description := description,
    Href := href }

/-- The schema invariant on the returns of a method: `Returns` is non-empty
and its first entry resolves to a type whose result holder has a name. -/
def wellFormedReturns (h : Helpers) (d : APIDescription) (m : MethodDescription) : Bool :=
  match m.Returns with
  | [] => false
  | ret0 :: _ => (getRetVarName (retTypeOf h d ret0)).isSome

/-- A method whose field `message_id` has three candidate types and no preferred one. -/
def editDice : MethodDescription :=
  { Fields := [chatIdField,
      { Name := "message_id", Types := ["Dice", "Integer", "Boolean"], Required := true,
        Description := "Identifier of the message to edit" }],
    Returns := ["Message"], Description := [],
    Href := "https://core.telegram.org/bots/api#editdice" }

/-- A schema with two methods that cannot be generated; the one that comes
first in the order of names, `editDice`, is listed after the other. -/
def sampleAPIBrokenTwice : APIDescription :=
  { Types := sampleTypes,
    Methods := [("sendPhoto", sendPhoto), ("sendDice", sendDice), ("getMe", getMe),
      ("editDice", editDice)] }

theorem foldl_append_init (l : List String) (a : String) :
    l.foldl (· ++ ·) a = a ++ concatAll l := by
  unfold concatAll
  induction l generalizing a with
  | nil => simp
  | cons x xs ih =>
    simp only [List.foldl_cons]
    rw [ih (a ++ x), ih ("" ++ x), String.empty_append, String.append_assoc]

theorem concatAll_nil : concatAll [] = "" := rfl

theorem concatAll_cons (x : String) (xs : List String) :
    concatAll (x :: xs) = x ++ concatAll xs := by
  show List.foldl (· ++ ·) ("" ++ x) xs = _
  rw [foldl_append_init, String.empty_append]

theorem concatAll_append (xs ys : List String) :
    concatAll (xs ++ ys) = concatAll xs ++ concatAll ys := by
  induction xs with
  | nil => simp [concatAll_nil]
  | cons x xs ih => simp [concatAll_cons, ih, String.append_assoc]

theorem resolves_iff (h : Helpers) (f : Field) :
    resolves h f = true ↔ h.getPreferredType f = .ok (preferredType h f) := by
  unfold resolves preferredType
  cases h.getPreferredType f <;> simp

theorem not_resolves_iff (h : Helpers) (f : Field) :
    resolves h f = false ↔ h.getPreferredType f = .error (resolveError h f) := by
  unfold resolves resolveError
  cases h.getPreferredType f <;> simp

/-- An iteration of the loop of `methodArgsToValues` on a field that resolves
appends the field's fragment and raises the flag exactly on `needsData`. -/
theorem methodArgsToValuesStep_ok (h : Helpers) (dflt : String) (st : Bool × String) (f : Field)
    (hf : resolves h f = true) :
    methodArgsToValuesStep h dflt st f
      = .ok (st.1 || needsData h f, st.2 ++ fragmentOf h dflt f) := by
  rw [resolves_iff] at hf
  unfold fragmentOf needsData hasStringer methodArgsToValuesStep
  rw [hf]
  simp only []
  split_ifs <;> simp_all [String.append_assoc]

theorem methodArgsToValuesStep_error (h : Helpers) (dflt : String) (st : Bool × String) (f : Field)
    (hf : resolves h f = false) :
    methodArgsToValuesStep h dflt st f
      = .error ("failed to get preferred type: " ++ resolveError h f) := by
  rw [not_resolves_iff] at hf
  unfold methodArgsToValuesStep
  rw [hf]

theorem methodArgsToValues_fold (h : Helpers) (dflt : String) (fields : List Field) :
    ∀ st : Bool × String, (∀ f ∈ fields, resolves h f = true) →
      fields.foldlM (methodArgsToValuesStep h dflt) st
        = .ok (st.1 || fields.any (needsData h),
            st.2 ++ concatAll (fields.map (fragmentOf h dflt))) := by
  induction fields with
  | nil => intro st _; simp [concatAll_nil, pure, Except.pure]
  | cons f fs ih =>
    intro st hall
    have hf : resolves h f = true := hall f (List.mem_cons_self _ _)
    have hfs : ∀ g ∈ fs, resolves h g = true := fun g hg => hall g (List.mem_cons_of_mem _ hg)
    rw [List.foldlM_cons, methodArgsToValuesStep_ok h dflt st f hf]
    show fs.foldlM (methodArgsToValuesStep h dflt) _ = _
    rw [ih _ hfs]
    simp [concatAll_cons, String.append_assoc, Bool.or_assoc]

theorem methodArgsToValues_fold_error (h : Helpers) (dflt : String) (fields : List Field)
    (f : Field) :
    ∀ st : Bool × String, fields.find? (fun g => !resolves h g) = some f →
      fields.foldlM (methodArgsToValuesStep h dflt) st
        = .error ("failed to get preferred type: " ++ resolveError h f) := by
  induction fields with
  | nil => intro st hfind; simp at hfind
  | cons g gs ih =>
    intro st hfind
    rw [List.foldlM_cons]
    cases hg : resolves h g with
    | true =>
      rw [methodArgsToValuesStep_ok h dflt st g hg]
      show gs.foldlM (methodArgsToValuesStep h dflt) _ = _
      apply ih
      simpa [List.find?_cons, hg] using hfind
    | false =>
      rw [methodArgsToValuesStep_error h dflt st g hg]
      have : g = f := by simpa [List.find?_cons, hg] using hfind
      subst this
      rfl

theorem getArgsStep_ok (h : Helpers) (st : List String × String) (f : Field)
    (hf : resolves h f = true) :
    getArgsStep h st f
      = .ok (if f.Required then (st.1 ++ [requiredArg h f], st.2)
             else (st.1, st.2 ++ optionalLines h f)) := by
  rw [resolves_iff] at hf
  unfold getArgsStep requiredArg optionalLines
  rw [hf]
  simp only []
  split_ifs <;> simp [String.append_assoc]

theorem getArgsStep_error (h : Helpers) (st : List String × String) (f : Field)
    (hf : resolves h f = false) :
    getArgsStep h st f = .error ("failed to get preferred type: " ++ resolveError h f) := by
  rw [not_resolves_iff] at hf
  unfold getArgsStep
  rw [hf]

theorem getArgs_fold (h : Helpers) (fields : List Field) :
    ∀ st : List String × String, (∀ f ∈ fields, resolves h f = true) →
      fields.foldlM (getArgsStep h) st
        = .ok (st.1 ++ (fields.filter (fun f => f.Required)).map (requiredArg h),
            st.2 ++ concatAll ((fields.filter (fun f => !f.Required)).map (optionalLines h))) := by
  induction fields with
  | nil => intro st _; simp [concatAll_nil, pure, Except.pure]
  | cons f fs ih =>
    intro st hall
    have hf : resolves h f = true := hall f (List.mem_cons_self _ _)
    have hfs : ∀ g ∈ fs, resolves h g = true := fun g hg => hall g (List.mem_cons_of_mem _ hg)
    rw [List.foldlM_cons, getArgsStep_ok h st f hf]
    show fs.foldlM (getArgsStep h) _ = _
    rw [ih _ hfs]
    cases hreq : f.Required <;>
      simp [hreq, concatAll_cons, String.append_assoc]

theorem getArgs_fold_error (h : Helpers) (fields : List Field) (f : Field) :
    ∀ st : List String × String, fields.find? (fun g => !resolves h g) = some f →
      fields.foldlM (getArgsStep h) st
        = .error ("failed to get preferred type: " ++ resolveError h f) := by
  induction fields with
  | nil => intro st hfind; simp at hfind
  | cons g gs ih =>
    intro st hfind
    rw [List.foldlM_cons]
    cases hg : resolves h g with
    | true =>
      rw [getArgsStep_ok h st g hg]
      show gs.foldlM (getArgsStep h) _ = _
      apply ih
      simpa [List.find?_cons, hg] using hfind
    | false =>
      rw [getArgsStep_error h st g hg]
      have : g = f := by simpa [List.find?_cons, hg] using hfind
      subst this
      rfl

theorem foldl_comment_lines (l : List String) (a : String) :
    l.foldl (fun b d => b ++ ("\n// " ++ d)) a
      = a ++ concatAll (l.map (fun d => "\n// " ++ d)) := by
  induction l generalizing a with
  | nil => simp [concatAll_nil]
  | cons x xs ih => simp [ih, concatAll_cons, String.append_assoc]

theorem return_addr (x : String) : "\nreturn " ++ ("&" ++ x) = "\nreturn &" ++ x := by
  rw [← String.append_assoc]
  rfl

theorem ne_empty_of_length_pos (s : String) (hs : 0 < s.length) : s ≠ "" := by
  intro he
  rw [he] at hs
  simp at hs

theorem concatAll_optionalLines_length (h : Helpers) (l : List Field) (hl : l ≠ []) :
    0 < (concatAll (l.map (optionalLines h))).length := by
  cases l with
  | nil => exact absurd rfl hl
  | cons f fs =>
    simp only [List.map_cons, concatAll_cons, optionalLines, String.length_append]
    have : "\n// ".length = 4 := by decide
    omega

/-- The result of `getArgs` on a method all of whose fields resolve. -/
theorem getArgs_of_resolves (h : Helpers) (name : String) (m : MethodDescription)
    (hall : ∀ f ∈ m.Fields, resolves h f = true) :
    getArgs h name m = .ok
      (if optionalFields m = [] then
        (", ".intercalate ((requiredFields m).map (requiredArg h)), "")
       else
        (", ".intercalate ((requiredFields m).map (requiredArg h)
            ++ ["opts " ++ aggregateName h name]), aggregateDef h name m)) := by
  unfold getArgs
  rw [getArgs_fold h m.Fields _ hall]
  simp only [List.nil_append, String.empty_append]
  by_cases hopt : optionalFields m = []
  · have h0 : List.filter (fun f => !f.Required) m.Fields = [] := hopt
    have hl : ¬ ("".length > 0) := by decide
    rw [if_pos hopt]
    simp only [h0, List.map_nil, concatAll_nil, hl, ↓reduceIte, requiredFields]
  · have hlen : (concatAll (List.map (optionalLines h)
        (List.filter (fun f => !f.Required) m.Fields))).length > 0 :=
      concatAll_optionalLines_length h (optionalFields m) hopt
    rw [if_neg hopt]
    unfold requiredFields aggregateDef aggregateName optionalFields
    simp only [hlen, ↓reduceIte, String.append_assoc]

theorem aggregateDef_ne_empty (h : Helpers) (name : String) (m : MethodDescription) :
    aggregateDef h name m ≠ "" := by
  apply ne_empty_of_length_pos
  unfold aggregateDef
  simp only [String.length_append]
  have : "\ntype ".length = 6 := by decide
  omega

/-- The result of `methodArgsToValues` on a method all of whose fields resolve. -/
theorem methodArgsToValues_of_resolves (h : Helpers) (m : MethodDescription) (dflt : String)
    (hall : ∀ f ∈ m.Fields, resolves h f = true) :
    methodArgsToValues h m dflt
      = .ok (concatAll (m.Fields.map (fragmentOf h dflt)), m.Fields.any (needsData h)) := by
  unfold methodArgsToValues
  rw [methodArgsToValues_fold h dflt m.Fields _ hall]
  simp

/-- The text `generateMethodDef` returns for a method whose fields all
resolve, whose `Returns` starts with `ret0` and whose result holder has a name. -/
theorem generateMethodDef_of_resolves (h : Helpers) (d : APIDescription) (m : MethodDescription)
    (name ret0 : String) (rest : List String) (v : String)
    (hret : m.Returns = ret0 :: rest)
    (hall : ∀ f ∈ m.Fields, resolves h f = true)
    (hv : getRetVarName (retTypeOf h d ret0) = some v) :
    generateMethodDef h d m name = .ok
      ((if optionalFields m = [] then "" else "\n" ++ aggregateDef h name m)
        ++ docBlock m
        ++ signatureLine h name
            (if optionalFields m = [] then ", ".intercalate ((requiredFields m).map (requiredArg h))
             else ", ".intercalate ((requiredFields m).map (requiredArg h)
                ++ ["opts " ++ aggregateName h name]))
            (retTypeOf h d ret0)
        ++ "\n\tv := urlLib.Values\x7b\x7d"
        ++ sinkDecl (m.Fields.any (needsData h))
        ++ concatAll (m.Fields.map
            (fragmentOf h (h.getDefaultReturnVal (retTypeOf h d ret0))))
        ++ "\n"
        ++ transportCall name (m.Fields.any (needsData h))
        ++ transportCheck (h.getDefaultReturnVal (retTypeOf h d ret0))
        ++ epilogue (retTypeOf h d ret0) v) := by
  unfold generateMethodDef
  rw [hret]
  simp only []
  rw [getArgs_of_resolves h name m hall]
  have hrt : (if h.isTgType d.Types (h.toGoType ret0) = true then "*" ++ h.toGoType ret0
      else h.toGoType ret0) = retTypeOf h d ret0 := rfl
  rw [hrt, methodArgsToValues_of_resolves h m _ hall]
  simp only [hv]
  have hagg := aggregateDef_ne_empty h name m
  by_cases hopt : optionalFields m = [] <;>
  cases hd : m.Fields.any (needsData h) <;>
  by_cases hp : (retTypeOf h d ret0).data.head? = some '*' <;>
    simp only [hopt, hd, hp, hagg, ↓reduceIte, ne_eq, not_true_eq_false, not_false_eq_true,
      Bool.false_eq_true, foldl_comment_lines, docBlock, signatureLine, sinkDecl,
      transportCall, transportCheck, epilogue, String.append_assoc, String.empty_append,
      String.append_empty, return_addr]

theorem any_needsData_eq (h : Helpers) (m : MethodDescription) :
    m.Fields.any (needsData h) = decide (multipart h m) := by
  rw [Bool.eq_iff_iff]
  simp only [List.any_eq_true, decide_eq_true_eq, multipart, needsData, Bool.and_eq_true,
    Bool.not_eq_true', Bool.or_eq_true]
  constructor
  · rintro ⟨f, hf, hs, hp⟩
    exact ⟨f, hf, hs, hp.elim (fun hp => hp.elim Or.inl (fun q => Or.inr (Or.inl q)))
      (fun q => Or.inr (Or.inr q))⟩
  · rintro ⟨f, hf, hs, hp⟩
    exact ⟨f, hf, hs, hp.elim (fun q => Or.inl (Or.inl q))
      (fun hp => hp.elim (fun q => Or.inl (Or.inr q)) Or.inr)⟩

theorem lastLine_append_newline (a b : List Char) (hb : '\n' ∉ b) :
    lastLine (a ++ '\n' :: b) = b := by
  induction a with
  | nil => simp [lastLine, hb]
  | cons x xs ih => simp [lastLine, ih]

/-! ## Transport selection -/

/-- C1: for a method all of whose fields resolve, the flag `hasData` returned
by `methodArgsToValues` is exactly the existential `multipart` over the field
list (some field without a primitive string conversion prefers InputFile,
InputMedia or Array of InputMedia), whatever the default return value is; and
`generateMethodDef` emits the sink declaration and the call `bot.Post` with
`data` exactly when `multipart` holds, and `bot.Get` without a sink otherwise. -/
theorem multipart_iff_data_field (h : Helpers) (d : APIDescription) (m : MethodDescription)
    (name : String) (hall : ∀ f ∈ m.Fields, resolves h f = true) :
    (∀ dflt, methodArgsToValues h m dflt
        = .ok (concatAll (m.Fields.map (fragmentOf h dflt)), decide (multipart h m)))
    ∧ (∀ ret0 rest v, m.Returns = ret0 :: rest → getRetVarName (retTypeOf h d ret0) = some v →
        generateMethodDef h d m name = .ok
          ((if optionalFields m = [] then "" else "\n" ++ aggregateDef h name m)
            ++ docBlock m
            ++ signatureLine h name (argList h name m) (retTypeOf h d ret0)
            ++ "\n\tv := urlLib.Values\x7b\x7d"
            ++ (if multipart h m then "\n\tdata := map[string]NamedReader\x7b\x7d" else "")
            ++ concatAll (m.Fields.map
                (fragmentOf h (h.getDefaultReturnVal (retTypeOf h d ret0))))
            ++ "\n"
            ++ (if multipart h m then "\nr, err := bot.Post(\"" ++ name ++ "\", v, data)"
                else "\nr, err := bot.Get(\"" ++ name ++ "\", v)")
            ++ transportCheck (h.getDefaultReturnVal (retTypeOf h d ret0))
            ++ epilogue (retTypeOf h d ret0) v)) := by
  constructor
  · intro dflt
    rw [methodArgsToValues_of_resolves h m dflt hall, any_needsData_eq]
  · intro ret0 rest v hret hv
    rw [generateMethodDef_of_resolves h d m name ret0 rest v hret hall hv, any_needsData_eq]
    unfold argList sinkDecl transportCall
    by_cases hm : multipart h m <;> by_cases ho : optionalFields m = [] <;>
      simp only [hm, ho, decide_True, decide_False, ↓reduceIte, Bool.false_eq_true]

theorem multipart_iff_data_field_witness :
    (∀ f ∈ sendPhoto.Fields, resolves sampleHelpers f = true)
    ∧ methodArgsToValues sampleHelpers sendPhoto "nil"
        = .ok (concatAll (sendPhoto.Fields.map (fragmentOf sampleHelpers "nil")),
            decide (multipart sampleHelpers sendPhoto))
    ∧ multipart sampleHelpers sendPhoto
    ∧ ¬ multipart sampleHelpers getChat :=
  ⟨by decide,
   (multipart_iff_data_field sampleHelpers sampleAPI sendPhoto "sendPhoto" (by decide)).1 "nil",
   by decide, by decide⟩

/-! ## Arguments -/

theorem filter_required_of_all (l : List Field) (hreq : ∀ f ∈ l, f.Required = true) :
    l.filter (fun f => f.Required) = l ∧ l.filter (fun f => !f.Required) = [] := by
  constructor
  · exact List.filter_eq_self.mpr hreq
  · apply List.filter_eq_nil_iff.mpr
    intro f hf
    simp [hreq f hf]

/-- C2: for a method whose fields all resolve and are all required, `getArgs`
returns an empty aggregate definition and the argument list that joins with
`, ` the parameters `<snakeToCamel(name)> <toGoType(preferred type)>` of the
fields in declaration order, without an `opts` argument; the text of
`generateMethodDef` then starts with the documentation block and the
signature: no `type ... struct` definition precedes the function. -/
theorem required_only_signature (h : Helpers) (d : APIDescription) (m : MethodDescription)
    (name : String) (hall : ∀ f ∈ m.Fields, resolves h f = true)
    (hreq : ∀ f ∈ m.Fields, f.Required = true) :
    getArgs h name m = .ok
        (", ".intercalate (m.Fields.map
          (fun f => h.snakeToCamel f.Name ++ " " ++ h.toGoType (preferredType h f))), "")
    ∧ (∀ ret0 rest v, m.Returns = ret0 :: rest → getRetVarName (retTypeOf h d ret0) = some v →
        generateMethodDef h d m name = .ok
          (docBlock m
            ++ signatureLine h name
                (", ".intercalate (m.Fields.map
                  (fun f => h.snakeToCamel f.Name ++ " " ++ h.toGoType (preferredType h f))))
                (retTypeOf h d ret0)
            ++ methodBody h d m name ret0 v)) := by
  obtain ⟨hr, ho⟩ := filter_required_of_all m.Fields hreq
  have hopt : optionalFields m = [] := ho
  have hrf : requiredFields m = m.Fields := hr
  have hfun : (fun f => h.snakeToCamel f.Name ++ " " ++ h.toGoType (preferredType h f))
      = requiredArg h := rfl
  rw [hfun]
  constructor
  · rw [getArgs_of_resolves h name m hall, if_pos hopt, hrf]
  · intro ret0 rest v hret hv
    rw [generateMethodDef_of_resolves h d m name ret0 rest v hret hall hv]
    unfold methodBody
    simp only [hopt, hrf, ↓reduceIte, String.empty_append, String.append_assoc]

theorem required_only_signature_witness :
    ((∀ f ∈ getChat.Fields, resolves sampleHelpers f = true)
      ∧ (∀ f ∈ getChat.Fields, f.Required = true))
    ∧ getArgs sampleHelpers "getChat" getChat = .ok
        (", ".intercalate (getChat.Fields.map
          (fun f => sampleHelpers.snakeToCamel f.Name ++ " "
            ++ sampleHelpers.toGoType (preferredType sampleHelpers f))), "") :=
  ⟨⟨by decide, by decide⟩,
   (required_only_signature sampleHelpers sampleAPI getChat "getChat"
      (by decide) (by decide)).1⟩

/-- C3, as stated, fails: it would make the line right before every member of
the aggregate the comment `// <Description>`, for every description.  A
description with a line break is written as it is after `// `, so the line
before the member `Caption string` of `sendPhotoCaptioned` is the second line
of the description, which is no comment. -/
theorem aggregate_comment_line_fails :
    ¬ (∀ (h : Helpers) (name : String) (m : MethodDescription),
        (∀ f ∈ m.Fields, resolves h f = true) →
        ∀ pre f post, optionalFields m = pre ++ f :: post →
          lastLine ("\ntype " ++ h.snakeToTitle name ++ "Opts" ++ " struct \x7b"
              ++ concatAll (pre.map (optionalLines h)) ++ "\n// " ++ f.Description).data
            = ("// " ++ f.Description).data) := by
  intro hc
  have hx := hc sampleHelpers "sendPhoto" sendPhotoCaptioned (by decide) []
    { Name := "caption", Types := ["String"], Required := false,
      Description := "Photo caption,\n0-1024 characters" } [] (by decide)
  revert hx
  decide

/-- C3, amended: for a method whose fields all resolve and that has an
optional field, `getArgs` returns the aggregate
`type <snakeToTitle(method)>Opts struct {...}` whose members are the optional
fields in declaration order, each written as `// <Description>`, a line break
and `<snakeToTitle(name)> <goType>`, and the argument list of the required
fields in declaration order followed by `opts <snakeToTitle(method)>Opts`.
When the description of an optional field has no line break, the line right
before its member is the comment `// <Description>`. -/
theorem aggregate_of_optionals (h : Helpers) (name : String) (m : MethodDescription)
    (hall : ∀ f ∈ m.Fields, resolves h f = true)
    (hopt : ∃ f ∈ m.Fields, f.Required = false) :
    getArgs h name m = .ok
        (", ".intercalate
          ((m.Fields.filter (fun f => f.Required)).map
              (fun f => h.snakeToCamel f.Name ++ " " ++ h.toGoType (preferredType h f))
            ++ ["opts " ++ h.snakeToTitle name ++ "Opts"]),
         "\ntype " ++ h.snakeToTitle name ++ "Opts" ++ " struct \x7b"
          ++ concatAll ((m.Fields.filter (fun f => !f.Required)).map
              (fun f => "\n// " ++ f.Description ++ "\n" ++ h.snakeToTitle f.Name ++ " "
                ++ h.toGoType (preferredType h f)))
          ++ "\n\x7d")
    ∧ (∀ pre f post, m.Fields.filter (fun f => !f.Required) = pre ++ f :: post →
        '\n' ∉ f.Description.data →
          lastLine ("\ntype " ++ h.snakeToTitle name ++ "Opts" ++ " struct \x7b"
              ++ concatAll (pre.map (optionalLines h)) ++ "\n// " ++ f.Description).data
            = ("// " ++ f.Description).data) := by
  constructor
  · have hne : optionalFields m ≠ [] := by
      obtain ⟨f, hf, hr⟩ := hopt
      intro he
      have hmem : f ∈ optionalFields m := by
        unfold optionalFields
        simp [List.mem_filter, hf, hr]
      rw [he] at hmem
      exact absurd hmem (List.not_mem_nil f)
    rw [getArgs_of_resolves h name m hall, if_neg hne]
    unfold aggregateDef aggregateName requiredFields optionalFields
    have h1 : requiredArg h
        = fun f => h.snakeToCamel f.Name ++ " " ++ h.toGoType (preferredType h f) := rfl
    have h2 : optionalLines h
        = fun f => "\n// " ++ f.Description ++ "\n" ++ h.snakeToTitle f.Name ++ " "
            ++ h.toGoType (preferredType h f) := rfl
    rw [h1, h2]
    simp only [String.append_assoc]
  · intro pre f post _ hnl
    have hsplit : ("\ntype " ++ h.snakeToTitle name ++ "Opts" ++ " struct \x7b"
          ++ concatAll (pre.map (optionalLines h)) ++ "\n// " ++ f.Description).data
        = ("\ntype " ++ h.snakeToTitle name ++ "Opts" ++ " struct \x7b"
            ++ concatAll (pre.map (optionalLines h))).data
          ++ '\n' :: ("// " ++ f.Description).data := by
      simp only [String.data_append]
      simp
    rw [hsplit]
    apply lastLine_append_newline
    simp only [String.data_append]
    simpa using hnl

theorem aggregate_of_optionals_witness :
    ((∀ f ∈ sendPhoto.Fields, resolves sampleHelpers f = true)
      ∧ (∃ f ∈ sendPhoto.Fields, f.Required = false))
    ∧ getArgs sampleHelpers "sendPhoto" sendPhoto = .ok
        ("chatId int64, opts SendPhotoOpts",
         "\ntype SendPhotoOpts struct \x7b\n// Photo to send\nPhoto InputFile\n\x7d") :=
  ⟨⟨by decide, by decide⟩,
   (aggregate_of_optionals sampleHelpers "sendPhoto" sendPhoto (by decide) (by decide)).1.trans
      (congrArg Except.ok (by decide))⟩

/-! ## The output assembler -/

theorem sortStrings_sorted (l : List String) : List.Sorted strLe (sortStrings l) :=
  List.sorted_insertionSort strLe l

theorem sortStrings_perm (l : List String) : (sortStrings l).Perm l :=
  List.perm_insertionSort strLe l

theorem sortStrings_eq_of_perm (l l' : List String) (hp : l.Perm l') :
    sortStrings l = sortStrings l' :=
  List.eq_of_perm_of_sorted
    (((sortStrings_perm l).trans hp).trans (sortStrings_perm l').symm)
    (sortStrings_sorted l) (sortStrings_sorted l')

theorem lookup_eq_of_perm (k : String) (l l' : List (String × MethodDescription))
    (hp : l.Perm l') (hnd : (l.map Prod.fst).Nodup) : l.lookup k = l'.lookup k := by
  induction hp with
  | nil => rfl
  | cons x _ ih =>
    obtain ⟨a, _⟩ := x
    simp only [List.map_cons, List.nodup_cons] at hnd
    simp only [List.lookup_cons]
    rw [ih hnd.2]
  | swap x y l =>
    obtain ⟨a, b⟩ := x
    obtain ⟨a2, b2⟩ := y
    simp only [List.map_cons, List.nodup_cons, List.mem_cons, not_or] at hnd
    have hne : a2 ≠ a := hnd.1.1
    simp only [List.lookup_cons]
    by_cases h1 : k = a
    · subst h1
      have : (k == a2) = false := by simpa using (fun h => hne h.symm)
      simp [this]
    · have : (k == a) = false := by simpa using h1
      simp [this]
  | trans p1 _ ih1 ih2 =>
    rw [ih1 hnd, ih2 ((p1.map Prod.fst).nodup_iff.mp hnd)]

theorem lookup_of_mem (l : List (String × MethodDescription)) (p : String × MethodDescription)
    (hp : p ∈ l) (hnd : (l.map Prod.fst).Nodup) : l.lookup p.1 = some p.2 := by
  induction l with
  | nil => simp at hp
  | cons x xs ih =>
    obtain ⟨a, b⟩ := x
    simp only [List.map_cons, List.nodup_cons] at hnd
    simp only [List.lookup_cons]
    rcases List.mem_cons.mp hp with heq | hmem
    · subst heq
      simp
    · have hne : p.1 ≠ a := by
        intro he
        apply hnd.1
        rw [← he]
        exact List.mem_map_of_mem Prod.fst hmem
      have : (p.1 == a) = false := by simpa using hne
      simp [this, ih hmem hnd.2]

theorem methodsIndex_of_mem (l : List (String × MethodDescription))
    (p : String × MethodDescription) (hp : p ∈ l) (hnd : (l.map Prod.fst).Nodup) :
    methodsIndex l p.1 = p.2 := by
  unfold methodsIndex
  rw [lookup_of_mem l p hp hnd]
  rfl

theorem generateMethodDef_types (h : Helpers) (d d' : APIDescription) (m : MethodDescription)
    (n : String) (ht : d'.Types = d.Types) :
    generateMethodDef h d' m n = generateMethodDef h d m n := by
  unfold generateMethodDef
  rw [ht]

theorem generateMethodsStep_eq (h : Helpers) (d : APIDescription) (file n : String) :
    generateMethodsStep h d file n
      = match generateMethodDef h d (methodsIndex d.Methods n) n with
        | .panic p => .panic p
        | .error err =>
          .error ("failed to generate method definition of " ++ n ++ ": " ++ err)
        | .ok method => .ok (file ++ method) := rfl

theorem generateMethodsStep_congr (h : Helpers) (d d' : APIDescription) (ht : d'.Types = d.Types)
    (hp : d'.Methods.Perm d.Methods) (hnd : (d.Methods.map Prod.fst).Nodup)
    (file n : String) : generateMethodsStep h d' file n = generateMethodsStep h d file n := by
  have hnd' : (d'.Methods.map Prod.fst).Nodup := (hp.map Prod.fst).nodup_iff.mpr hnd
  rw [generateMethodsStep_eq, generateMethodsStep_eq]
  unfold methodsIndex
  rw [lookup_eq_of_perm n d'.Methods d.Methods hp hnd', generateMethodDef_types h d d' _ n ht]

theorem generateMethodsLoop_congr (h : Helpers) (d d' : APIDescription) (ht : d'.Types = d.Types)
    (hp : d'.Methods.Perm d.Methods) (hnd : (d.Methods.map Prod.fst).Nodup)
    (ns : List String) : ∀ file, generateMethodsLoop h d' ns file = generateMethodsLoop h d ns file := by
  induction ns with
  | nil => intro file; rfl
  | cons n ns ih =>
    intro file
    unfold generateMethodsLoop
    rw [generateMethodsStep_congr h d d' ht hp hnd]
    cases generateMethodsStep h d file n with
    | ok f => exact ih f
    | error e => rfl
    | panic p => rfl

theorem generateMethodsStep_ok (h : Helpers) (d : APIDescription) (file n : String)
    (hok : methodFails h d n = false) :
    generateMethodsStep h d file n = .ok (file ++ methodText h d n) := by
  unfold methodFails at hok
  rw [generateMethodsStep_eq]
  unfold methodText
  cases hr : generateMethodDef h d (methodsIndex d.Methods n) n with
  | ok t => rfl
  | error e => rw [hr] at hok; simp [Result.isOk] at hok
  | panic p => rw [hr] at hok; simp [Result.isOk] at hok

theorem generateMethodsLoop_ok (h : Helpers) (d : APIDescription) (ns : List String) :
    ∀ file, (∀ n ∈ ns, methodFails h d n = false) →
      generateMethodsLoop h d ns file = .ok (file ++ concatAll (ns.map (methodText h d))) := by
  induction ns with
  | nil => intro file _; simp [generateMethodsLoop, concatAll_nil]
  | cons n ns ih =>
    intro file hall
    unfold generateMethodsLoop
    rw [generateMethodsStep_ok h d file n (hall n (List.mem_cons_self _ _))]
    simp only []
    rw [ih _ (fun k hk => hall k (List.mem_cons_of_mem _ hk))]
    simp [concatAll_cons, String.append_assoc]

theorem generateMethodsLoop_error (h : Helpers) (d : APIDescription) (ns : List String)
    (n e : String) :
    ∀ file, ns.find? (methodFails h d) = some n →
      generateMethodDef h d (methodsIndex d.Methods n) n = .error e →
      generateMethodsLoop h d ns file
        = .error ("failed to generate method definition of " ++ n ++ ": " ++ e) := by
  induction ns with
  | nil => intro file hfind; simp at hfind
  | cons k ks ih =>
    intro file hfind he
    unfold generateMethodsLoop
    cases hk : methodFails h d k with
    | false =>
      rw [generateMethodsStep_ok h d file k hk]
      simp only []
      apply ih _ _ he
      simpa [List.find?_cons, hk] using hfind
    | true =>
      have hkn : k = n := by simpa [List.find?_cons, hk] using hfind
      subst hkn
      rw [generateMethodsStep_eq, he]

theorem generateMethodsLoop_fails (h : Helpers) (d : APIDescription) (ns : List String) :
    ∀ file, (∃ n ∈ ns, methodFails h d n = true) →
      (generateMethodsLoop h d ns file).isOk = false := by
  induction ns with
  | nil => intro file hex; simp at hex
  | cons k ks ih =>
    intro file hex
    unfold generateMethodsLoop
    cases hk : methodFails h d k with
    | false =>
      rw [generateMethodsStep_ok h d file k hk]
      simp only []
      apply ih
      obtain ⟨n, hn, hf⟩ := hex
      rcases List.mem_cons.mp hn with heq | hmem
      · subst heq; rw [hk] at hf; exact absurd hf (by simp)
      · exact ⟨n, hmem, hf⟩
    | true =>
      unfold methodFails at hk
      rw [generateMethodsStep_eq]
      cases hr : generateMethodDef h d (methodsIndex d.Methods k) k with
      | ok t => rw [hr] at hk; simp [Result.isOk] at hk
      | error e => rfl
      | panic p => rfl

theorem methodFails_of_mem (h : Helpers) (d : APIDescription)
    (hnd : (d.Methods.map Prod.fst).Nodup) (p : String × MethodDescription) (hp : p ∈ d.Methods) :
    methodFails h d p.1 = !(generateMethodDef h d p.2 p.1).isOk := by
  unfold methodFails
  rw [methodsIndex_of_mem d.Methods p hp hnd]

theorem all_sorted_ok_iff (h : Helpers) (d : APIDescription)
    (hnd : (d.Methods.map Prod.fst).Nodup) :
    (∀ n ∈ sortStrings (d.Methods.map Prod.fst), methodFails h d n = false)
      ↔ ∀ p ∈ d.Methods, (generateMethodDef h d p.2 p.1).isOk = true := by
  constructor
  · intro hall p hp
    have hmem : p.1 ∈ sortStrings (d.Methods.map Prod.fst) :=
      (sortStrings_perm _).mem_iff.mpr (List.mem_map_of_mem Prod.fst hp)
    have := hall p.1 hmem
    rw [methodFails_of_mem h d hnd p hp] at this
    simpa using this
  · intro hall n hn
    have hmem : n ∈ d.Methods.map Prod.fst := (sortStrings_perm _).mem_iff.mp hn
    obtain ⟨p, hp, hpn⟩ := List.mem_map.mp hmem
    subst hpn
    rw [methodFails_of_mem h d hnd p hp]
    simp [hall p hp]

theorem generateMethods_eq (h : Helpers) (d : APIDescription) :
    generateMethods h d
      = match generateMethodsLoop h d (sortStrings (d.Methods.map Prod.fst)) preamble with
        | .panic p => { writes := [], outcome := .panic p }
        | .error e => { writes := [], outcome := .error e }
        | .ok file =>
          { writes := [(file, "gen/gen_methods.go")],
            outcome := match h.writeGenToFile file "gen/gen_methods.go" with
              | none => .ok ()
              | some e => .error e } := by
  unfold generateMethods
  simp only [String.empty_append]

/-- C4: the text handed to `writeGenToFile` is the preamble followed by the
text `generateMethodDef` returns for every method, the method names taken in
ascending order (`sortStrings` of the keys is sorted and a permutation of the
keys, so every method occurs once); and a schema with the same types and the
same methods visited in any other order gives the same run, byte for byte. -/
theorem generateMethods_sorted_once (h : Helpers) (d : APIDescription)
    (hnd : (d.Methods.map Prod.fst).Nodup) :
    (∀ d' : APIDescription, d'.Types = d.Types → d'.Methods.Perm d.Methods →
        generateMethods h d' = generateMethods h d)
    ∧ List.Sorted strLe (sortStrings (d.Methods.map Prod.fst))
    ∧ (sortStrings (d.Methods.map Prod.fst)).Perm (d.Methods.map Prod.fst)
    ∧ ((∀ p ∈ d.Methods, (generateMethodDef h d p.2 p.1).isOk = true) →
        (∀ p ∈ d.Methods, generateMethodDef h d p.2 p.1 = .ok (methodText h d p.1))
        ∧ (generateMethods h d).writes
          = [(preamble
                ++ concatAll ((sortStrings (d.Methods.map Prod.fst)).map (methodText h d)),
              "gen/gen_methods.go")]) := by
  refine ⟨?_, sortStrings_sorted _, sortStrings_perm _, ?_⟩
  · intro d' ht hp
    rw [generateMethods_eq, generateMethods_eq,
      sortStrings_eq_of_perm _ _ (hp.map Prod.fst),
      generateMethodsLoop_congr h d d' ht hp hnd]
  · intro hok
    constructor
    · intro p hp
      have := hok p hp
      unfold methodText
      rw [methodsIndex_of_mem d.Methods p hp hnd]
      cases hr : generateMethodDef h d p.2 p.1 with
      | ok t => rfl
      | error e => rw [hr] at this; simp [Result.isOk] at this
      | panic q => rw [hr] at this; simp [Result.isOk] at this
    · rw [generateMethods_eq,
        generateMethodsLoop_ok h d _ preamble ((all_sorted_ok_iff h d hnd).mpr hok)]

theorem generateMethods_sorted_once_witness :
    (sampleAPI.Methods.map Prod.fst).Nodup
    ∧ (sampleAPIReordered.Types = sampleAPI.Types
        ∧ sampleAPIReordered.Methods.Perm sampleAPI.Methods)
    ∧ generateMethods sampleHelpers sampleAPIReordered = generateMethods sampleHelpers sampleAPI :=
  ⟨by decide, ⟨rfl, by decide⟩,
   (generateMethods_sorted_once sampleHelpers sampleAPI (by decide)).1 sampleAPIReordered rfl
      (by decide)⟩

/-! ## Strategies -/

theorem goParam_eq (h : Helpers) (f : Field) :
    (if (!f.Required) = true then "opts." ++ h.snakeToTitle f.Name else h.snakeToCamel f.Name)
      = goParamOf h f := by
  unfold goParamOf
  cases f.Required <;> simp

/-- The fragment of a field that resolves is the text of its strategy. -/
theorem fragmentOf_eq_strategyText (h : Helpers) (dflt : String) (f : Field)
    (hf : resolves h f = true) : fragmentOf h dflt f = strategyText h dflt f := by
  have hp := (resolves_iff h f).mp hf
  unfold fragmentOf strategyText hasStringer methodArgsToValuesStep
  simp only [goParam_eq]
  rw [hp]
  simp only []
  unfold stringerText inputMediaText inputMediaArrayText replyMarkupText genericText
  split_ifs <;>
    simp_all only [String.empty_append, String.append_assoc, String.append_empty, ne_eq,
      decide_not, Bool.not_eq_true', decide_eq_false_iff_not, not_true_eq_false,
      not_false_eq_true, decide_eq_true_eq, Bool.false_eq_true, Bool.not_eq_false']

theorem methodArgsToValuesStep_eq (h : Helpers) (dflt : String) (st : Bool × String) (f : Field)
    (hf : resolves h f = true) :
    methodArgsToValuesStep h dflt st f
      = .ok (st.1 || needsData h f, st.2 ++ strategyText h dflt f) := by
  rw [methodArgsToValuesStep_ok h dflt st f hf, fragmentOf_eq_strategyText h dflt f hf]

theorem resolves_of_ok (h : Helpers) (f : Field) (t : String)
    (hp : h.getPreferredType f = .ok t) : resolves h f = true ∧ preferredType h f = t := by
  unfold resolves preferredType
  rw [hp]
  exact ⟨rfl, rfl⟩

theorem hasData_of_mem (h : Helpers) (m : MethodDescription) (dflt : String) (f : Field)
    (hmem : f ∈ m.Fields) (hn : needsData h f = true)
    (hall : ∀ g ∈ m.Fields, resolves h g = true) :
    methodArgsToValues h m dflt = .ok (concatAll (m.Fields.map (fragmentOf h dflt)), true) := by
  rw [methodArgsToValues_of_resolves h m dflt hall]
  have : m.Fields.any (needsData h) = true := List.any_eq_true.mpr ⟨f, hmem, hn⟩
  rw [this]

/-- C6: a field that prefers InputFile and has no primitive string conversion
(its list of candidate types being non-empty, as the schema guarantees) makes
an iteration of `methodArgsToValues` raise `hasData` and append the template
`stringOrReaderBranch` when the field has more than one candidate type, and the
template `readerBranch` when it has exactly one.  Both are a nil-guarded chain
in which an `io.Reader` and a `NamedReader` insert `attach://<field>` and
register `data["<field>"]` and any other value returns the default value with
the error `unknown type for InputFile`; only `stringOrReaderBranch` starts with
the branch that adds a plain string as it is.  A method with such a field is
multipart. -/
theorem inputFile_strategy (h : Helpers) (f : Field)
    (hp : h.getPreferredType f = .ok "InputFile")
    (hs : h.goTypeStringer (h.toGoType "InputFile") = "")
    (hty : f.Types ≠ []) :
    (∀ dflt st, methodArgsToValuesStep h dflt st f
        = .ok (true, st.2 ++
            (if 1 < f.Types.length then
              stringOrReaderBranch
                { GoParam := goParamOf h f, DefaultReturn := dflt, Parameter := f.Name }
             else
              readerBranch
                { GoParam := goParamOf h f, DefaultReturn := dflt, Parameter := f.Name })))
    ∧ (∀ p dflt n, stringOrReaderBranch { GoParam := p, DefaultReturn := dflt, Parameter := n }
        = "\nif " ++ p ++ " != nil \x7b"
          ++ "\n\tif s, ok := " ++ p ++ ".(string); ok \x7b"
          ++ "\n\t\tv.Add(\"" ++ n ++ "\", s)"
          ++ "\n\t\x7d else if r, ok := " ++ p ++ ".(io.Reader); ok \x7b"
          ++ "\n\t\tv.Add(\"" ++ n ++ "\", \"attach://" ++ n ++ "\")"
          ++ "\n\t\tdata[\"" ++ n ++ "\"] = NamedReader\x7bFile: r\x7d"
          ++ "\n\t\x7d else if nf, ok := " ++ p ++ ".(NamedReader); ok \x7b"
          ++ "\n\t\tv.Add(\"" ++ n ++ "\", \"attach://" ++ n ++ "\")"
          ++ "\n\t\tdata[\"" ++ n ++ "\"] = nf"
          ++ "\n\t\x7d else \x7b"
          ++ "\n\t\treturn " ++ dflt ++ ", fmt.Errorf(\"unknown type for InputFile: %T\"," ++ p ++ ")"
          ++ "\n\t\x7d"
          ++ "\n\x7d\n")
    ∧ (∀ p dflt n, readerBranch { GoParam := p, DefaultReturn := dflt, Parameter := n }
        = "\nif " ++ p ++ " != nil \x7b"
          ++ "\n\tif r, ok := " ++ p ++ ".(io.Reader); ok \x7b"
          ++ "\n\t\tv.Add(\"" ++ n ++ "\", \"attach://" ++ n ++ "\")"
          ++ "\n\t\tdata[\"" ++ n ++ "\"] = NamedReader\x7bFile: r\x7d"
          ++ "\n\t\x7d else if nf, ok := " ++ p ++ ".(NamedReader); ok \x7b"
          ++ "\n\t\tv.Add(\"" ++ n ++ "\", \"attach://" ++ n ++ "\")"
          ++ "\n\t\tdata[\"" ++ n ++ "\"] = nf"
          ++ "\n\t\x7d else \x7b"
          ++ "\n\t\treturn " ++ dflt ++ ", fmt.Errorf(\"unknown type for InputFile: %T\"," ++ p ++ ")"
          ++ "\n\t\x7d"
          ++ "\n\x7d\n")
    ∧ (∀ (m : MethodDescription) dflt, f ∈ m.Fields → (∀ g ∈ m.Fields, resolves h g = true) →
        methodArgsToValues h m dflt
          = .ok (concatAll (m.Fields.map (fragmentOf h dflt)), true)) := by
  obtain ⟨hres, hpt⟩ := resolves_of_ok h f _ hp
  have hst : hasStringer h f = false := by
    unfold hasStringer
    rw [hpt, hs]
    simp
  have hnd : needsData h f = true := by
    unfold needsData
    rw [hst, hpt]
    simp
  refine ⟨?_, fun _ _ _ => rfl, fun _ _ _ => rfl, ?_⟩
  · intro dflt st
    rw [methodArgsToValuesStep_eq h dflt st f hres, hnd]
    unfold strategyText
    rw [hst, hpt]
    have hlen : 0 < f.Types.length := List.length_pos.mpr hty
    by_cases h1 : f.Types.length = 1
    · have h2 : ¬ 1 < f.Types.length := by omega
      simp only [Bool.false_eq_true, ↓reduceIte]
      rw [if_pos h1, if_neg h2, Bool.or_true]
    · have h2 : 1 < f.Types.length := by omega
      simp only [Bool.false_eq_true, ↓reduceIte]
      rw [if_neg h1, if_pos h2, Bool.or_true]
  · intro m dflt hmem hall
    exact hasData_of_mem h m dflt f hmem hnd hall

theorem inputFile_strategy_witness :
    (sampleHelpers.getPreferredType photoField = .ok "InputFile"
      ∧ sampleHelpers.goTypeStringer (sampleHelpers.toGoType "InputFile") = ""
      ∧ photoField.Types ≠ [])
    ∧ methodArgsToValuesStep sampleHelpers "nil" (false, "") photoField
        = .ok (true, "" ++
            (if 1 < photoField.Types.length then
              stringOrReaderBranch
                { GoParam := goParamOf sampleHelpers photoField, DefaultReturn := "nil",
                  Parameter := photoField.Name }
             else
              readerBranch
                { GoParam := goParamOf sampleHelpers photoField, DefaultReturn := "nil",
                  Parameter := photoField.Name })) :=
  ⟨⟨by decide, by decide, by decide⟩,
   (inputFile_strategy sampleHelpers photoField (by decide) (by decide) (by decide)).1
      "nil" (false, "")⟩

set_option maxRecDepth 100000 in
/-- C7, as stated, fails: the guard emitted for the field `media` of
`sendMediaGroup` is `if media != nil`, a test for nil and not for emptiness,
and that test holds of the empty slice that is not nil: such a sequence enters
the block, and the JSON text of its empty list is added under `media`. -/
theorem media_guard_is_nil_test :
    methodArgsToValues sampleHelpers sendMediaOnly "nil"
      = .ok ("\nif media != nil \x7b"
          ++ "\n\tvar rawList []json.RawMessage"
          ++ "\n\tfor idx, im := range media \x7b"
          ++ "\n\t\tinputMediaBs, err := im.InputMediaParams(\"media\" + strconv.Itoa(idx), data)"
          ++ "\n\t\tif err != nil \x7b"
          ++ "\n\t\t\treturn nil, fmt.Errorf(\"failed to marshal InputMedia list item %d for field media: %w\", idx, err)"
          ++ "\n\t\t\x7d"
          ++ "\n\t\trawList = append(rawList, inputMediaBs)"
          ++ "\n\t\x7d"
          ++ "\n\tbytes, err := json.Marshal(rawList)"
          ++ "\n\tif err != nil \x7b"
          ++ "\n\t\treturn nil, fmt.Errorf(\"failed to marshal raw json list of InputMedia for field: media %w\", err)"
          ++ "\n\t\x7d"
          ++ "\n\tv.Add(\"media\", string(bytes))"
          ++ "\n\x7d", true)
    ∧ GoSlice.len (some []) = 0
    ∧ GoSlice.notNil (some []) = true := by
  refine ⟨?_, rfl, rfl⟩
  decide

/-- C7, amended: a field that prefers Array of InputMedia (and has no
primitive string conversion) makes an iteration of `methodArgsToValues` raise
`hasData` and append a block guarded by `if <param> != nil`, a test that the
sequence is not nil: the block loops over the elements, calls
`InputMediaParams` with the key `"<field>" + strconv.Itoa(idx)` and the sink
`data`, collects the results in `rawList`, marshals that list and adds it once
under the field name.  A method with such a field is multipart. -/
theorem inputMediaArray_strategy (h : Helpers) (f : Field)
    (hp : h.getPreferredType f = .ok "Array of InputMedia")
    (hs : h.goTypeStringer (h.toGoType "Array of InputMedia") = "") :
    (∀ dflt st, methodArgsToValuesStep h dflt st f
        = .ok (true, st.2 ++
            ("\nif " ++ goParamOf h f ++ " != nil \x7b"
              ++ "\n\tvar rawList []json.RawMessage"
              ++ "\n\tfor idx, im := range " ++ goParamOf h f ++ " \x7b"
              ++ "\n\t\tinputMediaBs, err := im.InputMediaParams(\"" ++ f.Name
                ++ "\" + strconv.Itoa(idx), data)"
              ++ "\n\t\tif err != nil \x7b"
              ++ "\n\t\t\treturn " ++ dflt
                ++ ", fmt.Errorf(\"failed to marshal InputMedia list item %d for field "
                ++ f.Name ++ ": %w\", idx, err)"
              ++ "\n\t\t\x7d"
              ++ "\n\t\trawList = append(rawList, inputMediaBs)"
              ++ "\n\t\x7d"
              ++ "\n\tbytes, err := json.Marshal(rawList)"
              ++ "\n\tif err != nil \x7b"
              ++ "\n\t\treturn " ++ dflt
                ++ ", fmt.Errorf(\"failed to marshal raw json list of InputMedia for field: "
                ++ f.Name ++ " %w\", err)"
              ++ "\n\t\x7d"
              ++ "\n\tv.Add(\"" ++ f.Name ++ "\", string(bytes))"
              ++ "\n\x7d")))
    ∧ (∀ (m : MethodDescription) dflt, f ∈ m.Fields → (∀ g ∈ m.Fields, resolves h g = true) →
        methodArgsToValues h m dflt
          = .ok (concatAll (m.Fields.map (fragmentOf h dflt)), true)) := by
  obtain ⟨hres, hpt⟩ := resolves_of_ok h f _ hp
  have hst : hasStringer h f = false := by
    unfold hasStringer
    rw [hpt, hs]
    simp
  have hnd : needsData h f = true := by
    unfold needsData
    rw [hst, hpt]
    simp
  refine ⟨?_, ?_⟩
  · intro dflt st
    rw [methodArgsToValuesStep_eq h dflt st f hres, hnd]
    unfold strategyText inputMediaArrayText
    rw [hst, hpt]
    have e1 : ¬ ("Array of InputMedia" = "InputFile") := by decide
    have e2 : ¬ ("Array of InputMedia" = "InputMedia") := by decide
    simp only [e1, e2, ↓reduceIte, Bool.or_true, Bool.false_eq_true, String.append_assoc]
  · intro m dflt hmem hall
    exact hasData_of_mem h m dflt f hmem hnd hall

theorem inputMediaArray_strategy_witness :
    (sampleHelpers.getPreferredType mediaField = .ok "Array of InputMedia"
      ∧ sampleHelpers.goTypeStringer (sampleHelpers.toGoType "Array of InputMedia") = "")
    ∧ methodArgsToValues sampleHelpers sendMediaGroup "nil"
        = .ok (concatAll (sendMediaGroup.Fields.map (fragmentOf sampleHelpers "nil")), true) :=
  ⟨⟨by decide, by decide⟩,
   (inputMediaArray_strategy sampleHelpers mediaField (by decide) (by decide)).2
      sendMediaGroup "nil" (by decide) (by decide)⟩

/-! ## Return type and failures -/

set_option maxRecDepth 100000 in
/-- C5, as stated, fails: `getMe` returns the API object `User`; the emitted
function has the return type `*User` and returns `nil` on a transport failure,
and its last statement, the one that carries a failure of `json.Unmarshal`,
returns `&u`, a reference to the holder declared by `var u User`, not `nil`. -/
theorem unmarshal_failure_returns_holder :
    sampleHelpers.isTgType sampleAPI.Types (sampleHelpers.toGoType "User") = true
    ∧ sampleHelpers.getDefaultReturnVal "*User" = "nil"
    ∧ generateMethodDef sampleHelpers sampleAPI getMe "getMe"
      = .ok ("\n// A simple method for testing your bot's authentication token."
          ++ "\n// https://core.telegram.org/bots/api#getme"
          ++ "\nfunc (bot Bot) GetMe() (*User, error) \x7b"
          ++ "\n\tv := urlLib.Values\x7b\x7d"
          ++ "\n"
          ++ "\nr, err := bot.Get(\"getMe\", v)"
          ++ "\n\tif err != nil \x7b"
          ++ "\n\t\treturn nil, err"
          ++ "\n\t\x7d"
          ++ "\n"
          ++ "\nvar u User"
          ++ "\nreturn &u, json.Unmarshal(r, &u)"
          ++ "\n\x7d") := by
  decide

/-- C5, amended: for a method whose first return type is a defined API
object `T` (and whose fields resolve), `generateMethodDef` emits the return
type `*T`; with `nil` the default value of `*T`, every fragment of a field is
the text of its strategy with `nil` as the first result of its return
statements, and the transport failure returns `nil, err`.  The last statement
returns `&<holder>` together with the result of `json.Unmarshal`: on a failure
of the deserialization the caller gets a reference to the holder. -/
theorem object_return_by_reference (h : Helpers) (d : APIDescription) (m : MethodDescription)
    (name ret0 : String) (rest : List String) (v : String)
    (hret : m.Returns = ret0 :: rest)
    (hall : ∀ f ∈ m.Fields, resolves h f = true)
    (htg : h.isTgType d.Types (h.toGoType ret0) = true)
    (hnil : h.getDefaultReturnVal ("*" ++ h.toGoType ret0) = "nil")
    (hv : getRetVarName ("*" ++ h.toGoType ret0) = some v) :
    generateMethodDef h d m name = .ok
      ((if optionalFields m = [] then "" else "\n" ++ aggregateDef h name m)
        ++ docBlock m
        ++ "\nfunc (bot Bot) " ++ h.stringsTitle name ++ "(" ++ argList h name m
          ++ ") (" ++ "*" ++ h.toGoType ret0 ++ ", error) \x7b"
        ++ "\n\tv := urlLib.Values\x7b\x7d"
        ++ sinkDecl (m.Fields.any (needsData h))
        ++ concatAll (m.Fields.map (strategyText h "nil"))
        ++ "\n"
        ++ transportCall name (m.Fields.any (needsData h))
        ++ "\n\tif err != nil \x7b" ++ "\n\t\treturn " ++ "nil" ++ ", err" ++ "\n\t\x7d" ++ "\n"
        ++ "\nvar " ++ v ++ " " ++ String.mk ((h.toGoType ret0).data.dropWhile (· == '*'))
        ++ "\nreturn &" ++ v ++ ", json.Unmarshal(r, &" ++ v ++ ")" ++ "\n\x7d") := by
  have hrt : retTypeOf h d ret0 = "*" ++ h.toGoType ret0 := by
    unfold retTypeOf
    rw [if_pos htg]
  have hv2 : getRetVarName (retTypeOf h d ret0) = some v := by rw [hrt]; exact hv
  have hfr : m.Fields.map (fragmentOf h "nil") = m.Fields.map (strategyText h "nil") :=
    List.map_congr_left (fun f hf => fragmentOf_eq_strategyText h "nil" f (hall f hf))
  have hhead : ("*" ++ h.toGoType ret0).data.head? = some '*' := rfl
  have hdrop : List.dropWhile (fun x => x == '*') ("*" ++ h.toGoType ret0).data
      = List.dropWhile (fun x => x == '*') (h.toGoType ret0).data := rfl
  rw [generateMethodDef_of_resolves h d m name ret0 rest v hret hall hv2, hrt, hnil, hfr]
  unfold epilogue transportCheck signatureLine argList
  rw [if_pos hhead, hdrop]
  by_cases ho : optionalFields m = [] <;>
    simp only [ho, ↓reduceIte, String.append_assoc, String.empty_append]

set_option maxRecDepth 100000 in
theorem object_return_by_reference_witness :
    (sendPhoto.Returns = "Message" :: []
      ∧ (∀ f ∈ sendPhoto.Fields, resolves sampleHelpers f = true)
      ∧ sampleHelpers.isTgType sampleAPI.Types (sampleHelpers.toGoType "Message") = true
      ∧ sampleHelpers.getDefaultReturnVal ("*" ++ sampleHelpers.toGoType "Message") = "nil"
      ∧ getRetVarName ("*" ++ sampleHelpers.toGoType "Message") = some "m")
    ∧ (generateMethodDef sampleHelpers sampleAPI sendPhoto "sendPhoto").isOk = true :=
  ⟨⟨rfl, by decide, by decide, by decide, by decide⟩,
   by
    rw [object_return_by_reference sampleHelpers sampleAPI sendPhoto "sendPhoto" "Message" []
      "m" rfl (by decide) (by decide) (by decide) (by decide)]
    rfl⟩

theorem exists_unresolved (h : Helpers) (l : List Field)
    (hex : ∃ f ∈ l, resolves h f = false) :
    ∃ f, l.find? (fun g => !resolves h g) = some f := by
  cases hfind : l.find? (fun g => !resolves h g) with
  | some k => exact ⟨k, rfl⟩
  | none =>
    obtain ⟨f, hf, hr⟩ := hex
    have := List.find?_eq_none.mp hfind f hf
    rw [hr] at this
    exact absurd rfl this

theorem getArgs_error (h : Helpers) (name : String) (m : MethodDescription) (f : Field)
    (hfind : m.Fields.find? (fun g => !resolves h g) = some f) :
    getArgs h name m = .error ("failed to get preferred type: " ++ resolveError h f) := by
  unfold getArgs
  rw [getArgs_fold_error h m.Fields f _ hfind]

theorem generateMethodDef_unresolved (h : Helpers) (d : APIDescription) (m : MethodDescription)
    (name ret0 : String) (rest : List String) (f : Field)
    (hret : m.Returns = ret0 :: rest)
    (hfind : m.Fields.find? (fun g => !resolves h g) = some f) :
    generateMethodDef h d m name
      = .error ("failed to get args for method " ++ name ++ ": "
          ++ ("failed to get preferred type: " ++ resolveError h f)) := by
  unfold generateMethodDef
  rw [hret]
  simp only []
  rw [getArgs_error h name m f hfind]

/-- C10: the outcome of `generateMethodDef` depends on `Returns` only through
its first entry: two method descriptions that differ only in the entries of
`Returns` after the first give the same text, the same error or the same panic. -/
theorem generateMethodDef_first_return_only (h : Helpers) (d : APIDescription)
    (fields : List Field) (ret0 : String) (rest rest' : List String)
    (description : List String) (href name : String) :
    generateMethodDef h d
        { Fields := fields, Returns := ret0 :: rest, Description := description, Href := href }
        name
      = generateMethodDef h d
        { Fields := fields, Returns := ret0 :: rest', Description := description, Href := href }
        name := by
  rfl

/-! ## The message handler -/

/-- C12: `CheckUpdate` returns the verdict of the filter (true for a nil
filter) on the first candidate that is eligible and present, in the order
Message (always eligible), EditedMessage (AllowEdited), ChannelPost
(AllowChannel), EditedChannelPost (AllowChannel and AllowEdited),
BusinessMessage (AllowBusiness), EditedBusinessMessage (AllowBusiness and
AllowEdited), and false when there is none.  A handler built by `NewMessage`
accepts only an update with `Message` set; `SetAllowEdited(true)`,
`SetAllowChannel(true)` and `SetAllowBusiness(true)` on it add exactly
EditedMessage, ChannelPost and BusinessMessage. -/
theorem checkUpdate_first_candidate {Msg Resp : Type} (m : Handlers.Message Msg Resp)
    (ctx : Handlers.Context Msg) (f : Option (Msg → Bool)) (r : Resp) :
    (m.CheckUpdate ctx
        = match Handlers.firstCandidate (Handlers.candidates m ctx) with
          | some msg => m.verdict msg
          | none => false)
    ∧ (∀ msg, m.verdict msg = match m.Filter with
          | none => true
          | some g => g msg)
    ∧ ((Handlers.NewMessage f r).CheckUpdate ctx
        = match ctx.Message with
          | some msg => (Handlers.NewMessage f r).verdict msg
          | none => false)
    ∧ (((Handlers.NewMessage f r).SetAllowEdited true).CheckUpdate ctx
        = match ctx.Message, ctx.EditedMessage with
          | some msg, _ => (Handlers.NewMessage f r).verdict msg
          | none, some msg => (Handlers.NewMessage f r).verdict msg
          | none, none => false)
    ∧ (((Handlers.NewMessage f r).SetAllowChannel true).CheckUpdate ctx
        = match ctx.Message, ctx.ChannelPost with
          | some msg, _ => (Handlers.NewMessage f r).verdict msg
          | none, some msg => (Handlers.NewMessage f r).verdict msg
          | none, none => false)
    ∧ (((Handlers.NewMessage f r).SetAllowBusiness true).CheckUpdate ctx
        = match ctx.Message, ctx.BusinessMessage with
          | some msg, _ => (Handlers.NewMessage f r).verdict msg
          | none, some msg => (Handlers.NewMessage f r).verdict msg
          | none, none => false) := by
  obtain ⟨c1, c2, c3, c4, c5, c6⟩ := ctx
  obtain ⟨ae, ac, ab, flt, rsp⟩ := m
  refine ⟨?_, fun _ => rfl, ?_, ?_, ?_, ?_⟩
  · cases c1 <;> cases c2 <;> cases c3 <;> cases c4 <;> cases c5 <;> cases c6 <;>
      cases ae <;> cases ac <;> cases ab <;> rfl
  · cases c1 <;> cases c2 <;> cases c3 <;> cases c4 <;> cases c5 <;> cases c6 <;> rfl
  · cases c1 <;> cases c2 <;> cases c3 <;> cases c4 <;> cases c5 <;> cases c6 <;> rfl
  · cases c1 <;> cases c2 <;> cases c3 <;> cases c4 <;> cases c5 <;> cases c6 <;> rfl
  · cases c1 <;> cases c2 <;> cases c3 <;> cases c4 <;> cases c5 <;> cases c6 <;> rfl

/-! ## The conversation storage -/

theorem lookup_filter_self {State : Type} (m : List (String × State)) (key : String) :
    (m.filter (fun p => p.1 != key)).lookup key = none := by
  induction m with
  | nil => rfl
  | cons p ps ih =>
    obtain ⟨a, b⟩ := p
    by_cases hk : a = key
    · subst hk
      simpa [List.filter_cons] using ih
    · have hne : (key == a) = false := by simpa using (fun h => hk h.symm)
      simp only [List.filter_cons, bne_iff_ne, ne_eq, hk, not_false_eq_true, ↓reduceIte,
        List.lookup_cons, hne]
      exact ih

theorem lookup_filter_other {State : Type} (m : List (String × State)) (key k : String)
    (hk : k ≠ key) : (m.filter (fun p => p.1 != key)).lookup k = m.lookup k := by
  induction m with
  | nil => rfl
  | cons p ps ih =>
    obtain ⟨a, b⟩ := p
    by_cases ha : a = key
    · subst ha
      have hne : (k == a) = false := by simpa using hk
      simp only [List.filter_cons, bne_self_eq_false, Bool.false_eq_true, ↓reduceIte,
        List.lookup_cons, hne]
      exact ih
    · simp only [List.filter_cons, bne_iff_ne, ne_eq, ha, not_false_eq_true, ↓reduceIte,
        List.lookup_cons]
      rw [ih]

theorem lookup_mapSet_self {State : Type} (m : List (String × State)) (key : String)
    (s : State) : (Conversation.mapSet m key s).lookup key = some s := by
  simp [Conversation.mapSet, List.lookup_cons]

theorem lookup_mapSet_other {State : Type} (m : List (String × State)) (key k : String)
    (s : State) (hk : k ≠ key) : (Conversation.mapSet m key s).lookup k = m.lookup k := by
  have hne : (k == key) = false := by simpa using hk
  simp only [Conversation.mapSet, List.lookup_cons, hne]
  exact lookup_filter_other m key k hk

theorem mapDelete_idem {State : Type} (m : List (String × State)) (key : String) :
    Conversation.mapDelete (Conversation.mapDelete m key) key = Conversation.mapDelete m key := by
  simp [Conversation.mapDelete, List.filter_filter]

theorem lookup_mapDelete_none {State : Type} (m : List (String × State)) (key : String) :
    (Conversation.mapDelete m key).lookup key = none :=
  lookup_filter_self m key

/-- C13: for every storage, also one with a nil map, every context whose key
derivation succeeds and every state, `Set` returns nil and a following `Get`
returns that state with a nil error; after two `Set` for the same context `Get`
returns the state of the later one. -/
theorem set_then_get {Ctx Strategy State : Type}
    (StateKey : Ctx → Strategy → Except String String)
    (c : Conversation.InMemoryStorage Strategy State) (ctx : Ctx) (key : String)
    (hkey : StateKey ctx c.keyStrategy = .ok key) :
    (∀ s, (c.Set StateKey ctx s).2 = none)
    ∧ (∀ s, ((c.Set StateKey ctx s).1.Get StateKey ctx).2 = (some s, none))
    ∧ (∀ s1 s2, (((c.Set StateKey ctx s1).1.Set StateKey ctx s2).1.Get StateKey ctx).2
        = (some s2, none)) := by
  have hset : ∀ (c' : Conversation.InMemoryStorage Strategy State) s,
      c'.keyStrategy = c.keyStrategy →
      (c'.Set StateKey ctx s).2 = none
      ∧ (c'.Set StateKey ctx s).1.keyStrategy = c.keyStrategy
      ∧ ((c'.Set StateKey ctx s).1.Get StateKey ctx).2 = (some s, none) := by
    intro c' s hks
    unfold Conversation.InMemoryStorage.Set Conversation.InMemoryStorage.Get
    rw [hks, hkey]
    simp only [hks, hkey, lookup_mapSet_self, and_self]
  refine ⟨fun s => (hset c s rfl).1, fun s => (hset c s rfl).2.2, ?_⟩
  intro s1 s2
  exact (hset _ s2 (hset c s1 rfl).2.1).2.2

theorem set_then_get_witness :
    Conversation.sampleStateKey "42" Conversation.nilStorage.keyStrategy = .ok "chat:42"
    ∧ ((Conversation.nilStorage.Set Conversation.sampleStateKey "42" "asked name").1.Get
        Conversation.sampleStateKey "42").2 = (some "asked name", none) :=
  ⟨by decide,
   (set_then_get Conversation.sampleStateKey Conversation.nilStorage "42" "chat:42"
      (by decide)).2.1 "asked name"⟩

/-- C14: for a context whose key derivation succeeds, `Get` returns
`ErrKeyNotFound` and a nil state exactly when no state is stored under the key
(as in a nil map), and the stored state with a nil error otherwise; `Delete`
returns nil, also when nothing is stored; after `Delete` a `Get` returns
`ErrKeyNotFound`; and a second `Delete` changes nothing. -/
theorem get_missing_and_delete {Ctx Strategy State : Type}
    (StateKey : Ctx → Strategy → Except String String)
    (c : Conversation.InMemoryStorage Strategy State) (ctx : Ctx) (key : String)
    (hkey : StateKey ctx c.keyStrategy = .ok key) :
    ((c.Get StateKey ctx).2 = (none, some Conversation.ErrKeyNotFound) ↔ c.stored key = none)
    ∧ (∀ s, c.stored key = some s → (c.Get StateKey ctx).2 = (some s, none))
    ∧ ({ keyStrategy := c.keyStrategy, conversations := none :
          Conversation.InMemoryStorage Strategy State }.Get StateKey ctx).2
        = (none, some Conversation.ErrKeyNotFound)
    ∧ (c.Delete StateKey ctx).2 = none
    ∧ ((c.Delete StateKey ctx).1.Get StateKey ctx).2 = (none, some Conversation.ErrKeyNotFound)
    ∧ ((c.Delete StateKey ctx).1.Delete StateKey ctx) = (c.Delete StateKey ctx) := by
  obtain ⟨ks, conv⟩ := c
  simp only at hkey
  unfold Conversation.InMemoryStorage.Get Conversation.InMemoryStorage.Delete
    Conversation.InMemoryStorage.stored
  simp only [hkey]
  cases conv with
  | none => simp [hkey]
  | some m =>
    simp only [hkey, lookup_mapDelete_none, mapDelete_idem]
    cases hl : m.lookup key with
    | none => simp
    | some s => simp

theorem get_missing_and_delete_witness :
    Conversation.sampleStateKey "42" Conversation.nilStorage.keyStrategy = .ok "chat:42"
    ∧ (Conversation.nilStorage.Delete Conversation.sampleStateKey "42").2 = none :=
  ⟨by decide,
   (get_missing_and_delete Conversation.sampleStateKey Conversation.nilStorage "42" "chat:42"
      (by decide)).2.2.2.1⟩

/-- C17: `Set` and `Delete` on a context with key `k` leave the state stored
under every other key as it was, and `Get` leaves the storage as it was; when
the key derivation fails, `Get`, `Set` and `Delete` return its error and leave
the storage as it was. -/
theorem storage_frame {Ctx Strategy State : Type}
    (StateKey : Ctx → Strategy → Except String String)
    (c : Conversation.InMemoryStorage Strategy State) (ctx : Ctx) :
    (∀ k, StateKey ctx c.keyStrategy = .ok k → ∀ k2, k2 ≠ k →
        (∀ s, (c.Set StateKey ctx s).1.stored k2 = c.stored k2)
        ∧ (c.Delete StateKey ctx).1.stored k2 = c.stored k2)
    ∧ (c.Get StateKey ctx).1 = c
    ∧ (∀ e, StateKey ctx c.keyStrategy = .error e →
        c.Get StateKey ctx = (c, none, some e)
        ∧ (∀ s, c.Set StateKey ctx s = (c, some e))
        ∧ c.Delete StateKey ctx = (c, some e)) := by
  obtain ⟨ks, conv⟩ := c
  refine ⟨?_, ?_, ?_⟩
  · intro k hk k2 hne
    simp only at hk
    unfold Conversation.InMemoryStorage.Set Conversation.InMemoryStorage.Delete
      Conversation.InMemoryStorage.stored
    simp only [hk]
    cases conv with
    | none => simp [lookup_mapSet_other _ _ _ _ hne]
    | some m =>
      simp only [lookup_mapSet_other _ _ _ _ hne, Conversation.mapDelete,
        lookup_filter_other _ _ _ hne, implies_true, and_self]
  · unfold Conversation.InMemoryStorage.Get
    simp only
    cases StateKey ctx ks with
    | error e => rfl
    | ok k =>
      cases conv with
      | none => rfl
      | some m =>
        simp only
        cases m.lookup k <;> rfl
  · intro e he
    simp only at he
    unfold Conversation.InMemoryStorage.Get Conversation.InMemoryStorage.Set
      Conversation.InMemoryStorage.Delete
    simp only [he, implies_true, and_self]

/-! ## Fragments -/

/-- C15: `methodArgsToValues` emits one fragment per field, in declaration
order, each a function of the field and the default return value alone: the
text for `xs ++ ys` is the text for `xs` followed by the text for `ys`, and
its flag is the disjunction of the two flags.  A field whose Go type has a
string conversion yields the one statement `v.Add("<name>", <conversion of the
parameter>)` and leaves the flag as it was, whatever its preferred type is. -/
theorem methodArgsToValues_append (h : Helpers) (m : MethodDescription) (dflt : String)
    (xs ys : List Field) (hx : ∀ f ∈ xs, resolves h f = true)
    (hy : ∀ f ∈ ys, resolves h f = true) :
    methodArgsToValues h { m with Fields := xs } dflt
        = .ok (concatAll (xs.map (fragmentOf h dflt)), xs.any (needsData h))
    ∧ methodArgsToValues h { m with Fields := ys } dflt
        = .ok (concatAll (ys.map (fragmentOf h dflt)), ys.any (needsData h))
    ∧ methodArgsToValues h { m with Fields := xs ++ ys } dflt
        = .ok (concatAll (xs.map (fragmentOf h dflt)) ++ concatAll (ys.map (fragmentOf h dflt)),
            xs.any (needsData h) || ys.any (needsData h))
    ∧ (∀ f t, h.getPreferredType f = .ok t → h.goTypeStringer (h.toGoType t) ≠ "" →
        ∀ st, methodArgsToValuesStep h dflt st f
          = .ok (st.1, st.2 ++ ("\nv.Add(\"" ++ f.Name ++ "\", "
              ++ h.fmtSprintf (h.goTypeStringer (h.toGoType t))
                  (if f.Required then h.snakeToCamel f.Name else "opts." ++ h.snakeToTitle f.Name)
              ++ ")"))) := by
  have hxy : ∀ f ∈ xs ++ ys, resolves h f = true := by
    intro f hf
    rcases List.mem_append.mp hf with h1 | h1
    · exact hx f h1
    · exact hy f h1
  refine ⟨methodArgsToValues_of_resolves h _ dflt hx, methodArgsToValues_of_resolves h _ dflt hy,
    ?_, ?_⟩
  · rw [methodArgsToValues_of_resolves h _ dflt hxy]
    simp only [List.map_append, concatAll_append, List.any_append]
  · intro f t hp hs st
    obtain ⟨hres, hpt⟩ := resolves_of_ok h f t hp
    have hst : hasStringer h f = true := by
      unfold hasStringer
      rw [hpt]
      simpa using hs
    have hnd : needsData h f = false := by
      unfold needsData
      rw [hst]
      rfl
    rw [methodArgsToValuesStep_eq h dflt st f hres, hnd]
    unfold strategyText stringerText goParamOf
    rw [hst, hpt]
    simp only [↓reduceIte, Bool.or_false]

theorem methodArgsToValues_append_witness :
    ((∀ f ∈ [chatIdField], resolves sampleHelpers f = true)
      ∧ (∀ f ∈ [photoField], resolves sampleHelpers f = true))
    ∧ methodArgsToValues sampleHelpers { sendPhoto with Fields := [chatIdField] ++ [photoField] }
        "nil"
      = .ok (concatAll ([chatIdField].map (fragmentOf sampleHelpers "nil"))
            ++ concatAll ([photoField].map (fragmentOf sampleHelpers "nil")),
          [chatIdField].any (needsData sampleHelpers)
            || [photoField].any (needsData sampleHelpers)) :=
  ⟨⟨by decide, by decide⟩,
   (methodArgsToValues_append sampleHelpers sendPhoto "nil" [chatIdField] [photoField]
      (by decide) (by decide)).2.2.1⟩

/-- C16: a field without a primitive string conversion whose preferred type
is none of InputFile, InputMedia, Array of InputMedia and ReplyMarkup gets the
generic fragment: `json.Marshal(<param>)`, on failure a return of the default
value with the error `failed to marshal field <name>` wrapping the cause, then
`v.Add("<name>", string(bytes))`; the block is enclosed in
`if <param> != nil { ... }` exactly when `isTgArray` holds of the preferred
type.  The flag `hasData` is left as it was. -/
theorem generic_strategy (h : Helpers) (f : Field) (t : String)
    (hp : h.getPreferredType f = .ok t)
    (hs : h.goTypeStringer (h.toGoType t) = "")
    (h1 : t ≠ "InputFile") (h2 : t ≠ "InputMedia") (h3 : t ≠ "Array of InputMedia")
    (h4 : t ≠ "ReplyMarkup") :
    ∀ dflt st, methodArgsToValuesStep h dflt st f
      = .ok (st.1, st.2 ++
          ((if h.isTgArray t then "\nif " ++ goParamOf h f ++ " != nil \x7b" else "")
            ++ "\n\tbytes, err := json.Marshal(" ++ goParamOf h f ++ ")"
            ++ "\n\tif err != nil \x7b"
            ++ "\n\t\treturn " ++ dflt ++ ", fmt.Errorf(\"failed to marshal field " ++ f.Name
              ++ ": %w\", err)"
            ++ "\n\t\x7d"
            ++ "\n\tv.Add(\"" ++ f.Name ++ "\", string(bytes))"
            ++ (if h.isTgArray t then "\n\x7d" else ""))) := by
  intro dflt st
  obtain ⟨hres, hpt⟩ := resolves_of_ok h f t hp
  have hst : hasStringer h f = false := by
    unfold hasStringer
    rw [hpt, hs]
    simp
  have hnd : needsData h f = false := by
    unfold needsData
    rw [hst, hpt]
    simp [h1, h2, h3]
  rw [methodArgsToValuesStep_eq h dflt st f hres, hnd]
  unfold strategyText genericText
  rw [hst, hpt]
  simp only [h1, h2, h3, h4, ↓reduceIte, Bool.or_false, Bool.false_eq_true]

set_option maxRecDepth 100000 in
theorem generic_strategy_witness :
    (sampleHelpers.getPreferredType entitiesField = .ok "Array of MessageEntity"
      ∧ sampleHelpers.goTypeStringer (sampleHelpers.toGoType "Array of MessageEntity") = ""
      ∧ "Array of MessageEntity" ≠ "InputFile" ∧ "Array of MessageEntity" ≠ "InputMedia"
      ∧ "Array of MessageEntity" ≠ "Array of InputMedia"
      ∧ "Array of MessageEntity" ≠ "ReplyMarkup")
    ∧ methodArgsToValuesStep sampleHelpers "nil" (false, "") entitiesField
      = .ok (false,
          "\nif opts.CaptionEntities != nil \x7b"
            ++ "\n\tbytes, err := json.Marshal(opts.CaptionEntities)"
            ++ "\n\tif err != nil \x7b"
            ++ "\n\t\treturn nil, fmt.Errorf(\"failed to marshal field caption_entities: %w\", err)"
            ++ "\n\t\x7d"
            ++ "\n\tv.Add(\"caption_entities\", string(bytes))"
            ++ "\n\x7d") :=
  ⟨⟨by decide, by decide, by decide, by decide, by decide, by decide⟩,
   (generic_strategy sampleHelpers entitiesField "Array of MessageEntity" (by decide) (by decide)
      (by decide) (by decide) (by decide) (by decide) "nil" (false, "")).trans (by decide)⟩

theorem strategyText_eq_with (h : Helpers) (dflt : String) (f : Field) :
    strategyText h dflt f = strategyTextWith h dflt f (goParamOf h f) := rfl

/-- C18: signature and body agree on the name of every argument.  For a
method whose fields resolve, the fragment of a field reads it through
`snakeToCamel(name)` when the field is required and through
`opts.<snakeToTitle(name)>` when it is optional; `getArgs` declares the
parameter `snakeToCamel(name)` for every required field and, when there is an
optional field, the member `<snakeToTitle(name)>` of the aggregate for every
optional field together with the last parameter `opts`.  Without an optional
field no fragment reads through `opts.`. -/
theorem signature_body_names_agree (h : Helpers) (name : String) (m : MethodDescription)
    (hall : ∀ f ∈ m.Fields, resolves h f = true) :
    (∀ f ∈ m.Fields, ∀ dflt st, methodArgsToValuesStep h dflt st f
        = .ok (st.1 || needsData h f, st.2 ++ strategyTextWith h dflt f
            (if f.Required then h.snakeToCamel f.Name else "opts." ++ h.snakeToTitle f.Name)))
    ∧ getArgs h name m = .ok
        (", ".intercalate
          ((m.Fields.filter (fun f => f.Required)).map
              (fun f => h.snakeToCamel f.Name ++ " " ++ h.toGoType (preferredType h f))
            ++ (if m.Fields.filter (fun f => !f.Required) = [] then []
                else ["opts " ++ (h.snakeToTitle name ++ "Opts")])),
         if m.Fields.filter (fun f => !f.Required) = [] then ""
         else "\ntype " ++ (h.snakeToTitle name ++ "Opts") ++ " struct \x7b"
          ++ concatAll ((m.Fields.filter (fun f => !f.Required)).map
              (fun f => "\n// " ++ f.Description ++ "\n" ++ h.snakeToTitle f.Name ++ " "
                ++ h.toGoType (preferredType h f)))
          ++ "\n\x7d")
    ∧ (m.Fields.filter (fun f => !f.Required) = [] →
        ∀ f ∈ m.Fields, ∀ dflt st, methodArgsToValuesStep h dflt st f
          = .ok (st.1 || needsData h f,
              st.2 ++ strategyTextWith h dflt f (h.snakeToCamel f.Name))) := by
  have hstep : ∀ f ∈ m.Fields, ∀ dflt st, methodArgsToValuesStep h dflt st f
      = .ok (st.1 || needsData h f, st.2 ++ strategyTextWith h dflt f
          (if f.Required then h.snakeToCamel f.Name else "opts." ++ h.snakeToTitle f.Name)) := by
    intro f hf dflt st
    rw [methodArgsToValuesStep_eq h dflt st f (hall f hf), strategyText_eq_with]
    rfl
  refine ⟨hstep, ?_, ?_⟩
  · rw [getArgs_of_resolves h name m hall]
    unfold aggregateDef aggregateName requiredFields optionalFields
    have e1 : requiredArg h
        = fun f => h.snakeToCamel f.Name ++ " " ++ h.toGoType (preferredType h f) := rfl
    have e2 : optionalLines h
        = fun f => "\n// " ++ f.Description ++ "\n" ++ h.snakeToTitle f.Name ++ " "
            ++ h.toGoType (preferredType h f) := rfl
    rw [e1, e2]
    by_cases ho : m.Fields.filter (fun f => !f.Required) = []
    · rw [if_pos ho, if_pos ho, if_pos ho, List.append_nil]
    · rw [if_neg ho, if_neg ho, if_neg ho]
  · intro ho f hf dflt st
    have hr : f.Required = true := by
      cases hreq : f.Required with
      | true => rfl
      | false =>
        have : f ∈ m.Fields.filter (fun f => !f.Required) := by
          simp [List.mem_filter, hf, hreq]
        rw [ho] at this
        exact absurd this (List.not_mem_nil f)
    rw [hstep f hf dflt st, if_pos hr]

theorem signature_body_names_agree_witness :
    (∀ f ∈ sendPhoto.Fields, resolves sampleHelpers f = true)
    ∧ getArgs sampleHelpers "sendPhoto" sendPhoto = .ok
        ("chatId int64, opts SendPhotoOpts",
         "\ntype SendPhotoOpts struct \x7b\n// Photo to send\nPhoto InputFile\n\x7d") :=
  ⟨by decide,
   (signature_body_names_agree sampleHelpers "sendPhoto" sendPhoto (by decide)).2.1.trans
      (congrArg Except.ok (by decide))⟩

/-! ## The result holder -/

theorem trimStars_other (c : Char) (cs : List Char) (hc : c ≠ '*') :
    trimStars (c :: cs) = c :: cs := by
  rw [trimStars]
  intro cs2 hx
  exact hc (List.cons.inj hx).1

theorem stripAll_star (cs : List Char) : stripAll ('*' :: cs) = stripAll cs := by
  rw [stripAll]

theorem stripAll_trimStars (s : List Char) : stripAll (trimStars s) = stripAll s := by
  induction s with
  | nil => rfl
  | cons c cs ih =>
    by_cases hc : c = '*'
    · subst hc
      rw [trimStars, stripAll_star]
      exact ih
    · rw [trimStars_other c cs hc]

theorem trimSliceMarks_pair (cs : List Char) :
    trimSliceMarks ('[' :: ']' :: cs) = trimSliceMarks cs := by
  rw [trimSliceMarks]

theorem stripAll_pair (cs : List Char) : stripAll ('[' :: ']' :: cs) = stripAll cs := by
  rw [stripAll]

theorem trimSliceMarks_other (s : List Char)
    (hs : ∀ cs, s ≠ '[' :: ']' :: cs) : trimSliceMarks s = s := by
  rw [trimSliceMarks]
  intro cs hx
  exact hs cs hx

theorem stripAll_trimSliceMarks : ∀ (n : Nat) (s : List Char), s.length ≤ n →
    stripAll (trimSliceMarks s) = stripAll s := by
  intro n
  induction n with
  | zero =>
    intro s hs
    have : s = [] := List.length_eq_zero.mp (Nat.le_zero.mp hs)
    subst this
    rfl
  | succ n ih =>
    intro s hs
    by_cases hp : ∃ cs, s = '[' :: ']' :: cs
    · obtain ⟨cs, rfl⟩ := hp
      have hlen : cs.length ≤ n := by
        simp only [List.length_cons] at hs
        omega
      rw [trimSliceMarks_pair, stripAll_pair]
      exact ih cs hlen
    · rw [trimSliceMarks_other s (fun cs hx => hp ⟨cs, hx⟩)]

theorem trimSliceMarks_no_pair : ∀ (n : Nat) (s : List Char), s.length ≤ n →
    ∀ cs, trimSliceMarks s ≠ '[' :: ']' :: cs := by
  intro n
  induction n with
  | zero =>
    intro s hs cs
    have : s = [] := List.length_eq_zero.mp (Nat.le_zero.mp hs)
    subst this
    intro hx
    exact List.noConfusion hx
  | succ n ih =>
    intro s hs cs
    by_cases hp : ∃ cs2, s = '[' :: ']' :: cs2
    · obtain ⟨cs2, rfl⟩ := hp
      have hlen : cs2.length ≤ n := by
        simp only [List.length_cons] at hs
        omega
      rw [trimSliceMarks_pair]
      exact ih cs2 hlen cs
    · rw [trimSliceMarks_other s (fun cs2 hx => hp ⟨cs2, hx⟩)]
      exact fun hx => hp ⟨cs, hx⟩

theorem stripAll_baseTypeName (s : String) : stripAll (baseTypeName s) = stripAll s.data := by
  unfold baseTypeName
  rw [stripAll_trimSliceMarks _ _ (Nat.le_refl _), stripAll_trimStars]

theorem stripAll_other (s : List Char) (h1 : ∀ cs, s ≠ '*' :: cs)
    (h2 : ∀ cs, s ≠ '[' :: ']' :: cs) : stripAll s = s := by
  rw [stripAll]
  · intro cs hx
    exact h1 cs hx
  · intro cs hx
    exact h2 cs hx

theorem baseTypeName_retTypeOf (h : Helpers) (d : APIDescription) (ret0 : String) :
    baseTypeName (retTypeOf h d ret0) = baseTypeName (h.toGoType ret0) := by
  unfold retTypeOf
  split_ifs
  · rfl
  · rfl

theorem generateMethodDef_no_panic (h : Helpers) (d : APIDescription) (m : MethodDescription)
    (name ret0 : String) (rest : List String) (v : String)
    (hret : m.Returns = ret0 :: rest)
    (hv : getRetVarName (retTypeOf h d ret0) = some v) :
    ∀ p, generateMethodDef h d m name ≠ .panic p := by
  intro p hp
  by_cases hall : ∀ f ∈ m.Fields, resolves h f = true
  · rw [generateMethodDef_of_resolves h d m name ret0 rest v hret hall hv] at hp
    exact Result.noConfusion hp
  · push_neg at hall
    obtain ⟨f, hf, hr⟩ := hall
    have hr2 : resolves h f = false := by simpa using hr
    obtain ⟨g, hg⟩ := exists_unresolved h m.Fields ⟨f, hf, hr2⟩
    rw [generateMethodDef_unresolved h d m name ret0 rest g hret hg] at hp
    exact Result.noConfusion hp

theorem lowerFirstByte_eq (c : Char) :
    lowerFirstByte c
      = if c.toNat < 128 then
          (if 65 ≤ c.toNat ∧ c.toNat ≤ 90 then String.singleton (Char.ofNat (c.toNat + 32))
           else String.singleton c)
        else "\uFFFD" := by
  unfold lowerFirstByte Char.toLower
  by_cases h1 : c.toNat < 128
  · by_cases h2 : 65 ≤ c.toNat ∧ c.toNat ≤ 90
    · simp only [ge_iff_le, h1, h2.1, h2.2, and_self, ↓reduceIte]
    · simp only [ge_iff_le, h1, h2, ↓reduceIte]
  · simp only [h1, ↓reduceIte]
    rfl

theorem trimStars_replicate (a : Nat) (s : List Char) (hs : ∀ cs, s ≠ '*' :: cs) :
    trimStars (List.replicate a '*' ++ s) = s := by
  induction a with
  | zero =>
    cases s with
    | nil => rfl
    | cons c cs =>
      exact trimStars_other c cs (fun hc => hs cs (by rw [hc]))
  | succ a ih =>
    show trimStars ('*' :: (List.replicate a '*' ++ s)) = s
    rw [trimStars]
    exact ih

theorem trimSliceMarks_replicate (b : Nat) (s : List Char)
    (hs : ∀ cs, s ≠ '[' :: ']' :: cs) :
    trimSliceMarks ((List.replicate b ['[', ']']).flatten ++ s) = s := by
  induction b with
  | zero => exact trimSliceMarks_other s hs
  | succ b ih =>
    show trimSliceMarks ('[' :: ']' :: ((List.replicate b ['[', ']']).flatten ++ s)) = s
    rw [trimSliceMarks_pair]
    exact ih

set_option maxRecDepth 100000 in
/-- C20, as stated, fails: `Array of *Foo` resolves to `[]*Foo`, whose name
after the removal of all leading `*` and `[]` is `Foo`; `getRetVarName` removes
the leading `*` first and the leading `[]` after, is left with `*Foo`, and
returns `*`, not the lower-cased first byte `f` of `Foo`. -/
theorem holder_of_pointer_slice :
    sampleHelpers.toGoType "Array of *Foo" = "[]*Foo"
    ∧ stripAll "[]*Foo".data = "Foo".data
    ∧ baseTypeName "[]*Foo" = "*Foo".data
    ∧ getRetVarName (retTypeOf sampleHelpers sampleAPI "Array of *Foo") = some "*" := by
  decide

/-- C20, amended: for a method whose `Returns` is non-empty and whose first
return type resolves to a Go type with a non-empty name left after its leading
`*` and then its leading `[]` are removed, `generateMethodDef` does not panic:
neither `Returns[0]` nor `retType[:1]` fails.  `getRetVarName`, a total
function, returns `strings.ToLower` of the first byte of that remaining name:
an upper-case ASCII letter becomes the lower-case one, any other ASCII
character stays, and the lead byte of any other character becomes U+FFFD.  For
a type of the shape `*`...`*` `[]`...`[]` name that remaining name is the name;
it is the name without any leading `*` and `[]` unless it starts with `*`. -/
theorem no_out_of_range (h : Helpers) (d : APIDescription) (m : MethodDescription)
    (name ret0 : String) (rest : List String)
    (hret : m.Returns = ret0 :: rest)
    (hne : baseTypeName (h.toGoType ret0) ≠ []) :
    (∀ p, generateMethodDef h d m name ≠ .panic p)
    ∧ (∀ c cs, baseTypeName (h.toGoType ret0) = c :: cs →
        getRetVarName (retTypeOf h d ret0)
          = some (if c.toNat < 128 then
              (if 65 ≤ c.toNat ∧ c.toNat ≤ 90 then String.singleton (Char.ofNat (c.toNat + 32))
               else String.singleton c)
              else "\uFFFD")
        ∧ (c ≠ '*' → stripAll (h.toGoType ret0).data = c :: cs))
    ∧ (∀ (a b : Nat) (c : Char) (cs : List Char),
        (h.toGoType ret0).data
          = List.replicate a '*' ++ ((List.replicate b ['[', ']']).flatten ++ c :: cs) →
        (b = 0 → c ≠ '*') → (∀ cs2, c :: cs ≠ '[' :: ']' :: cs2) →
        baseTypeName (h.toGoType ret0) = c :: cs)
    ∧ (∀ s : String, stripAll s.data ≠ [] → baseTypeName s ≠ []) := by
  have hname : ∀ c cs, baseTypeName (h.toGoType ret0) = c :: cs →
      getRetVarName (retTypeOf h d ret0) = some (lowerFirstByte c) := by
    intro c cs hb
    have hb2 : trimSliceMarks (trimStars (retTypeOf h d ret0).data) = c :: cs := by
      have := baseTypeName_retTypeOf h d ret0
      unfold baseTypeName at this hb
      rw [this, hb]
    unfold getRetVarName
    rw [hb2]
  refine ⟨?_, ?_, ?_, ?_⟩
  · cases hb : baseTypeName (h.toGoType ret0) with
    | nil => exact absurd hb hne
    | cons c cs => exact generateMethodDef_no_panic h d m name ret0 rest _ hret (hname c cs hb)
  · intro c cs hb
    refine ⟨by rw [hname c cs hb, lowerFirstByte_eq], ?_⟩
    intro hc
    rw [← stripAll_baseTypeName, hb]
    apply stripAll_other
    · intro cs2 hx
      exact hc (List.cons.inj hx).1
    · intro cs2 hx
      have := trimSliceMarks_no_pair _ (trimStars (h.toGoType ret0).data) (Nat.le_refl _) cs2
      unfold baseTypeName at hb
      rw [hb] at this
      exact this hx
  · intro a b c cs hshape hstar hpair
    unfold baseTypeName
    rw [hshape, trimStars_replicate, trimSliceMarks_replicate b _ hpair]
    intro cs2 hx
    cases b with
    | zero =>
      exact hstar rfl (List.cons.inj hx).1
    | succ b =>
      have h1 := (List.cons.inj hx).1
      exact absurd h1 (by decide)
  · intro s hs hb
    rw [← stripAll_baseTypeName, hb] at hs
    exact hs rfl

theorem no_out_of_range_witness :
    (sendPhoto.Returns = "Message" :: []
      ∧ baseTypeName (sampleHelpers.toGoType "Message") ≠ [])
    ∧ getRetVarName (retTypeOf sampleHelpers sampleAPI "Message") = some "m" :=
  ⟨⟨rfl, by decide⟩,
   ((no_out_of_range sampleHelpers sampleAPI sendPhoto "sendPhoto" "Message" [] rfl
      (by decide)).2.1 'M' "essage".data (by decide)).1.trans (by decide)⟩

set_option maxRecDepth 100000 in
/-- C19 fails on the code: for `sendMessage` with the two optional object
fields `link_preview_options` and `reply_parameters`, the body holds the
statement `bytes, err := json.Marshal(...)` twice at the level of the function,
outside any block, so `bytes` is declared twice in one scope; and for a return
type such as `Venue` the result holder gets the name `v` of the form values. -/
theorem bytes_declared_twice :
    methodArgsToValues sampleHelpers sendMessage "nil"
      = .ok ("\nv.Add(\"chat_id\", strconv.FormatInt(chatId, 10))"
          ++ "\n\tbytes, err := json.Marshal(opts.LinkPreviewOptions)"
          ++ "\n\tif err != nil \x7b"
          ++ "\n\t\treturn nil, fmt.Errorf(\"failed to marshal field link_preview_options: %w\", err)"
          ++ "\n\t\x7d"
          ++ "\n\tv.Add(\"link_preview_options\", string(bytes))"
          ++ "\n\tbytes, err := json.Marshal(opts.ReplyParameters)"
          ++ "\n\tif err != nil \x7b"
          ++ "\n\t\treturn nil, fmt.Errorf(\"failed to marshal field reply_parameters: %w\", err)"
          ++ "\n\t\x7d"
          ++ "\n\tv.Add(\"reply_parameters\", string(bytes))", false)
    ∧ getRetVarName "Venue" = some "v" := by
  decide

/-! ## End to end -/

set_option maxRecDepth 100000 in
/-- C11: for `sendPhoto` with the required field `chat_id` of type Integer and
the optional field `photo` of types InputFile and String, when Integer resolves
to `int64` with a string conversion, `photo` prefers InputFile (which has no
string conversion), `chat_id` becomes `chatId`, `sendPhoto` becomes `SendPhoto`
and `photo` becomes `Photo`, `generateMethodDef` emits the aggregate
`type SendPhotoOpts struct` with the member `Photo`, then the signature
`func (bot Bot) SendPhoto(chatId int64, opts SendPhotoOpts)`, the sink `data`,
the fragment for `opts.Photo` written out in full (a string is added as it is
under `photo`, a reader or NamedReader adds `attach://photo` and registers
`data["photo"]`, any other value returns the default value with an error), and
the call `bot.Post("sendPhoto", v, data)` with its check and the epilogue. -/
theorem sendPhoto_end_to_end (h : Helpers) (d : APIDescription) (dc dp : String)
    (desc : List String) (href ret0 : String) (rest : List String) (v stc : String)
    (hchat : h.getPreferredType (chatIdOf dc) = .ok "Integer")
    (hint : h.toGoType "Integer" = "int64")
    (hstc : h.goTypeStringer "int64" = stc) (hstc0 : stc ≠ "")
    (hphoto : h.getPreferredType (photoOf dp) = .ok "InputFile")
    (hfile : h.goTypeStringer (h.toGoType "InputFile") = "")
    (hcamel : h.snakeToCamel "chat_id" = "chatId")
    (htitle : h.snakeToTitle "sendPhoto" = "SendPhoto")
    (hmember : h.snakeToTitle "photo" = "Photo")
    (hgo : h.stringsTitle "sendPhoto" = "SendPhoto")
    (hv : getRetVarName (retTypeOf h d ret0) = some v) :
    generateMethodDef h d (sendPhotoOf dc dp (ret0 :: rest) desc href) "sendPhoto"
      = .ok ("\n"
          ++ "\ntype SendPhotoOpts struct \x7b"
          ++ "\n// " ++ dp
          ++ "\nPhoto " ++ h.toGoType "InputFile"
          ++ "\n\x7d"
          ++ concatAll (desc.map (fun x => "\n// " ++ x)) ++ "\n// " ++ href
          ++ "\nfunc (bot Bot) SendPhoto(chatId int64, opts SendPhotoOpts) ("
          ++ retTypeOf h d ret0 ++ ", error) \x7b"
          ++ "\n\tv := urlLib.Values\x7b\x7d"
          ++ "\n\tdata := map[string]NamedReader\x7b\x7d"
          ++ "\nv.Add(\"chat_id\", " ++ h.fmtSprintf stc "chatId" ++ ")"
          ++ "\nif opts.Photo != nil \x7b"
          ++ "\n\tif s, ok := opts.Photo.(string); ok \x7b"
          ++ "\n\t\tv.Add(\"photo\", s)"
          ++ "\n\t\x7d else if r, ok := opts.Photo.(io.Reader); ok \x7b"
          ++ "\n\t\tv.Add(\"photo\", \"attach://photo\")"
          ++ "\n\t\tdata[\"photo\"] = NamedReader\x7bFile: r\x7d"
          ++ "\n\t\x7d else if nf, ok := opts.Photo.(NamedReader); ok \x7b"
          ++ "\n\t\tv.Add(\"photo\", \"attach://photo\")"
          ++ "\n\t\tdata[\"photo\"] = nf"
          ++ "\n\t\x7d else \x7b"
          ++ "\n\t\treturn " ++ h.getDefaultReturnVal (retTypeOf h d ret0)
            ++ ", fmt.Errorf(\"unknown type for InputFile: %T\",opts.Photo)"
          ++ "\n\t\x7d"
          ++ "\n\x7d\n"
          ++ "\n"
          ++ "\nr, err := bot.Post(\"sendPhoto\", v, data)"
          ++ "\n\tif err != nil \x7b"
          ++ "\n\t\treturn " ++ h.getDefaultReturnVal (retTypeOf h d ret0) ++ ", err"
          ++ "\n\t\x7d"
          ++ "\n"
          ++ "\nvar " ++ v ++ " "
          ++ (if (retTypeOf h d ret0).data.head? = some '*'
              then String.mk ((retTypeOf h d ret0).data.dropWhile (· == '*'))
              else retTypeOf h d ret0)
          ++ "\nreturn " ++ (if (retTypeOf h d ret0).data.head? = some '*' then "&" else "")
            ++ v ++ ", json.Unmarshal(r, &" ++ v ++ ")"
          ++ "\n\x7d") := by
  obtain ⟨hr1, hp1⟩ := resolves_of_ok h _ _ hchat
  obtain ⟨hr2, hp2⟩ := resolves_of_ok h _ _ hphoto
  have hall : ∀ f ∈ (sendPhotoOf dc dp (ret0 :: rest) desc href).Fields,
      resolves h f = true := by
    intro f hf
    have hf2 : f ∈ [chatIdOf dc, photoOf dp] := hf
    simp only [List.mem_cons, List.mem_singleton, List.not_mem_nil, or_false] at hf2
    rcases hf2 with rfl | rfl
    · exact hr1
    · exact hr2
  rw [generateMethodDef_of_resolves h d _ "sendPhoto" ret0 rest v rfl hall hv]
  have hs1 : hasStringer h (chatIdOf dc) = true := by
    unfold hasStringer
    rw [hp1, hint, hstc]
    simpa using hstc0
  have hs2 : hasStringer h (photoOf dp) = false := by
    unfold hasStringer
    rw [hp2, hfile]
    simp
  have hf1 : fragmentOf h (h.getDefaultReturnVal (retTypeOf h d ret0)) (chatIdOf dc)
      = "\nv.Add(\"" ++ "chat_id" ++ "\", " ++ h.fmtSprintf stc "chatId" ++ ")" := by
    rw [fragmentOf_eq_strategyText h _ _ hr1]
    unfold strategyText stringerText goParamOf
    rw [hs1, hp1, hint, hstc]
    have e1 : (chatIdOf dc).Required = true := rfl
    have e2 : (chatIdOf dc).Name = "chat_id" := rfl
    simp only [↓reduceIte, e1, e2, hcamel]
  have hf2 : fragmentOf h (h.getDefaultReturnVal (retTypeOf h d ret0)) (photoOf dp)
      = stringOrReaderBranch
          { GoParam := "opts." ++ "Photo",
            DefaultReturn := h.getDefaultReturnVal (retTypeOf h d ret0),
            Parameter := "photo" } := by
    rw [fragmentOf_eq_strategyText h _ _ hr2]
    unfold strategyText goParamOf
    rw [hs2, hp2]
    have e1 : (photoOf dp).Required = false := rfl
    have e2 : (photoOf dp).Name = "photo" := rfl
    have e3 : ¬ ((photoOf dp).Types.length = 1) := by
      show ¬ ((2 : Nat) = 1)
      decide
    simp only [Bool.false_eq_true, ↓reduceIte, e1, e2, e3, hmember]
  have hnd : needsData h (photoOf dp) = true := by
    unfold needsData
    rw [hs2, hp2]
    rfl
  have hany : (sendPhotoOf dc dp (ret0 :: rest) desc href).Fields.any (needsData h) = true := by
    show List.any [chatIdOf dc, photoOf dp] (needsData h) = true
    simp only [List.any_cons, hnd, Bool.true_or, Bool.or_true]
  have ha1 : requiredArg h (chatIdOf dc) = "chatId" ++ " " ++ "int64" := by
    unfold requiredArg
    rw [hp1, hint]
    have e2 : (chatIdOf dc).Name = "chat_id" := rfl
    rw [e2, hcamel]
  have ha2 : optionalLines h (photoOf dp)
      = "\n// " ++ dp ++ "\n" ++ "Photo" ++ " " ++ h.toGoType "InputFile" := by
    unfold optionalLines
    rw [hp2]
    have e2 : (photoOf dp).Name = "photo" := rfl
    have e3 : (photoOf dp).Description = dp := rfl
    rw [e2, e3, hmember]
  have hopt : optionalFields (sendPhotoOf dc dp (ret0 :: rest) desc href) = [photoOf dp] := rfl
  have hreq : requiredFields (sendPhotoOf dc dp (ret0 :: rest) desc href) = [chatIdOf dc] := rfl
  have hflds : (sendPhotoOf dc dp (ret0 :: rest) desc href).Fields
      = [chatIdOf dc, photoOf dp] := rfl
  have hdesc : (sendPhotoOf dc dp (ret0 :: rest) desc href).Description = desc := rfl
  have hhref : (sendPhotoOf dc dp (ret0 :: rest) desc href).Href = href := rfl
  have hne : ¬ optionalFields (sendPhotoOf dc dp (ret0 :: rest) desc href) = [] := by
    rw [hopt]
    exact List.cons_ne_nil _ _
  have hargs : ", ".intercalate (["chatId" ++ " " ++ "int64"] ++ ["opts " ++ ("SendPhoto" ++ "Opts")])
      = "chatId int64, opts SendPhotoOpts" := by decide
  rw [if_neg hne, if_neg hne, hany]
  unfold aggregateDef aggregateName signatureLine sinkDecl transportCall docBlock
    transportCheck epilogue
  rw [hopt, hreq, hflds, hdesc, hhref]
  simp only [↓reduceIte, List.map_cons, List.map_nil, concatAll_cons, concatAll_nil,
    hf1, hf2, ha1, ha2, htitle, hgo, hargs]
  unfold stringOrReaderBranch
  by_cases hptr : (retTypeOf h d ret0).data.head? = some '*'
  · simp only [hptr, ↓reduceIte, String.append_assoc, String.append_empty]
    rfl
  · simp only [hptr, ↓reduceIte, String.append_assoc, String.append_empty, String.empty_append]
    rfl

set_option maxRecDepth 100000 in
theorem sendPhoto_end_to_end_witness :
    (sampleHelpers.getPreferredType (chatIdOf "Target chat") = .ok "Integer"
      ∧ sampleHelpers.toGoType "Integer" = "int64"
      ∧ sampleHelpers.goTypeStringer "int64" = "strconv.FormatInt(%s, 10)"
      ∧ "strconv.FormatInt(%s, 10)" ≠ ""
      ∧ sampleHelpers.getPreferredType (photoOf "Photo to send") = .ok "InputFile"
      ∧ sampleHelpers.goTypeStringer (sampleHelpers.toGoType "InputFile") = ""
      ∧ sampleHelpers.snakeToCamel "chat_id" = "chatId"
      ∧ sampleHelpers.snakeToTitle "sendPhoto" = "SendPhoto"
      ∧ sampleHelpers.snakeToTitle "photo" = "Photo"
      ∧ sampleHelpers.stringsTitle "sendPhoto" = "SendPhoto"
      ∧ getRetVarName (retTypeOf sampleHelpers sampleAPI "Message") = some "m")
    ∧ generateMethodDef sampleHelpers sampleAPI
        (sendPhotoOf "Target chat" "Photo to send" ("Message" :: []) [] "") "sendPhoto"
      = .ok ("\n"
          ++ "\ntype SendPhotoOpts struct \x7b"
          ++ "\n// Photo to send"
          ++ "\nPhoto InputFile"
          ++ "\n\x7d"
          ++ "\n// "
          ++ "\nfunc (bot Bot) SendPhoto(chatId int64, opts SendPhotoOpts) (*Message, error) \x7b"
          ++ "\n\tv := urlLib.Values\x7b\x7d"
          ++ "\n\tdata := map[string]NamedReader\x7b\x7d"
          ++ "\nv.Add(\"chat_id\", strconv.FormatInt(chatId, 10))"
          ++ "\nif opts.Photo != nil \x7b"
          ++ "\n\tif s, ok := opts.Photo.(string); ok \x7b"
          ++ "\n\t\tv.Add(\"photo\", s)"
          ++ "\n\t\x7d else if r, ok := opts.Photo.(io.Reader); ok \x7b"
          ++ "\n\t\tv.Add(\"photo\", \"attach://photo\")"
          ++ "\n\t\tdata[\"photo\"] = NamedReader\x7bFile: r\x7d"
          ++ "\n\t\x7d else if nf, ok := opts.Photo.(NamedReader); ok \x7b"
          ++ "\n\t\tv.Add(\"photo\", \"attach://photo\")"
          ++ "\n\t\tdata[\"photo\"] = nf"
          ++ "\n\t\x7d else \x7b"
          ++ "\n\t\treturn nil, fmt.Errorf(\"unknown type for InputFile: %T\",opts.Photo)"
          ++ "\n\t\x7d"
          ++ "\n\x7d\n"
          ++ "\n"
          ++ "\nr, err := bot.Post(\"sendPhoto\", v, data)"
          ++ "\n\tif err != nil \x7b"
          ++ "\n\t\treturn nil, err"
          ++ "\n\t\x7d"
          ++ "\n"
          ++ "\nvar m Message"
          ++ "\nreturn &m, json.Unmarshal(r, &m)"
          ++ "\n\x7d") :=
  ⟨⟨by decide, by decide, by decide, by decide, by decide, by decide, by decide, by decide,
    by decide, by decide, by decide⟩,
   (sendPhoto_end_to_end sampleHelpers sampleAPI "Target chat" "Photo to send" [] ""
      "Message" [] "m" "strconv.FormatInt(%s, 10)" (by decide) (by decide) (by decide)
      (by decide) (by decide) (by decide) (by decide) (by decide) (by decide) (by decide)
      (by decide)).trans (by decide)⟩

/-! ## Failures of the run -/

theorem find_least_failing (fails : String → Bool) (n : String) :
    ∀ l : List String, List.Sorted strLe l → n ∈ l → fails n = true →
      (∀ k ∈ l, fails k = true → strLe n k) → l.find? fails = some n := by
  intro l
  induction l with
  | nil => intro _ hn; exact absurd hn (List.not_mem_nil n)
  | cons x xs ih =>
    intro hs hn hf hleast
    have hsx := List.sorted_cons.mp hs
    cases hx : fails x with
    | true =>
      have h1 : strLe n x := hleast x (List.mem_cons_self _ _) hx
      have h2 : strLe x n := by
        rcases List.mem_cons.mp hn with heq | hmem
        · rw [heq]
          exact le_refl x.toList
        · exact hsx.1 n hmem
      have hxn : x = n := strLe.isAntisymm.antisymm x n h2 h1
      subst hxn
      simp only [List.find?_cons, hx]
    | false =>
      have hne : n ≠ x := by
        intro he
        rw [he, hx] at hf
        exact absurd hf (by simp)
      have hmem : n ∈ xs := by
        rcases List.mem_cons.mp hn with heq | hmem
        · exact absurd heq hne
        · exact hmem
      simp only [List.find?_cons, hx]
      exact ih hsx.2 hmem hf (fun k hk hfk => hleast k (List.mem_cons_of_mem _ hk) hfk)

theorem sorted_find_le (fails : String → Bool) :
    ∀ l : List String, List.Sorted strLe l → ∀ n k, l.find? fails = some n → k ∈ l →
      fails k = true → strLe n k := by
  intro l
  induction l with
  | nil => intro _ n k hfind; simp at hfind
  | cons x xs ih =>
    intro hs n k hfind hk hfk
    have hsx := List.sorted_cons.mp hs
    cases hx : fails x with
    | true =>
      have hxn : x = n := by simpa [List.find?_cons, hx] using hfind
      subst hxn
      rcases List.mem_cons.mp hk with heq | hmem
      · rw [heq]
        exact le_refl x.toList
      · exact hsx.1 k hmem
    | false =>
      have hne : k ≠ x := by
        intro he
        rw [he, hx] at hfk
        exact absurd hfk (by simp)
      have hmem : k ∈ xs := by
        rcases List.mem_cons.mp hk with heq | hmem
        · exact absurd heq hne
        · exact hmem
      apply ih hsx.2 n k _ hmem hfk
      simpa [List.find?_cons, hx] using hfind

theorem generateMethodsLoop_panic (h : Helpers) (d : APIDescription) (ns : List String)
    (n q : String) :
    ∀ file, ns.find? (methodFails h d) = some n →
      generateMethodDef h d (methodsIndex d.Methods n) n = .panic q →
      generateMethodsLoop h d ns file = .panic q := by
  induction ns with
  | nil => intro file hfind; simp at hfind
  | cons k ks ih =>
    intro file hfind he
    unfold generateMethodsLoop
    cases hk : methodFails h d k with
    | false =>
      rw [generateMethodsStep_ok h d file k hk]
      simp only []
      apply ih _ _ he
      simpa [List.find?_cons, hk] using hfind
    | true =>
      have hkn : k = n := by simpa [List.find?_cons, hk] using hfind
      subst hkn
      rw [generateMethodsStep_eq, he]

theorem least_failing_found (h : Helpers) (d : APIDescription)
    (hnd : (d.Methods.map Prod.fst).Nodup) (n : String) (hn : n ∈ d.Methods.map Prod.fst)
    (hf : methodFails h d n = true)
    (hleast : ∀ p ∈ d.Methods, (generateMethodDef h d p.2 p.1).isOk = false → strLe n p.1) :
    (sortStrings (d.Methods.map Prod.fst)).find? (methodFails h d) = some n := by
  apply find_least_failing (methodFails h d) n _ (sortStrings_sorted _)
    ((sortStrings_perm _).mem_iff.mpr hn) hf
  intro k hk hfk
  have hmem : k ∈ d.Methods.map Prod.fst := (sortStrings_perm _).mem_iff.mp hk
  obtain ⟨p, hp, hpk⟩ := List.mem_map.mp hmem
  subst hpk
  apply hleast p hp
  rw [methodFails_of_mem h d hnd p hp] at hfk
  simpa using hfk

theorem no_panic_of_wellFormed (h : Helpers) (d : APIDescription) (m : MethodDescription)
    (name : String) (hwf : wellFormedReturns h d m = true) :
    ∀ q, generateMethodDef h d m name ≠ .panic q := by
  unfold wellFormedReturns at hwf
  cases hr : m.Returns with
  | nil => rw [hr] at hwf; exact absurd hwf (by simp)
  | cons ret0 rest =>
    rw [hr] at hwf
    simp only at hwf
    cases hv : getRetVarName (retTypeOf h d ret0) with
    | none => rw [hv] at hwf; exact absurd hwf (by simp)
    | some v => exact generateMethodDef_no_panic h d m name ret0 rest v hr hv

/-- C8: `generateMethods` calls `writeGenToFile` exactly when `generateMethodDef`
succeeds for every method of the schema.  A method that fails and whose name
is below or equal to the name of every failing method in the lexicographic
order `strLe` decides the run: when it returns the error `e` the run writes
nothing and returns `failed to generate method definition of <name>: e`, and
when it panics the run writes nothing and panics.  In a schema whose methods
all have a non-empty `Returns` and a named result holder no method panics: if
some method fails, the run writes nothing and returns that error for the
lexicographically first failing method. -/
theorem generateMethods_all_or_nothing (h : Helpers) (d : APIDescription)
    (hnd : (d.Methods.map Prod.fst).Nodup) :
    ((generateMethods h d).writes ≠ []
        ↔ ∀ p ∈ d.Methods, (generateMethodDef h d p.2 p.1).isOk = true)
    ∧ (∀ n ∈ d.Methods.map Prod.fst,
        (∀ p ∈ d.Methods, (generateMethodDef h d p.2 p.1).isOk = false → strLe n p.1) →
        (∀ e, generateMethodDef h d (methodsIndex d.Methods n) n = .error e →
          generateMethods h d
            = { writes := [],
                outcome := .error ("failed to generate method definition of " ++ n ++ ": "
                  ++ e) })
        ∧ (∀ q, generateMethodDef h d (methodsIndex d.Methods n) n = .panic q →
          generateMethods h d = { writes := [], outcome := .panic q }))
    ∧ ((∀ p ∈ d.Methods, wellFormedReturns h d p.2 = true) →
        (∃ p ∈ d.Methods, (generateMethodDef h d p.2 p.1).isOk = false) →
        ∃ n e, n ∈ d.Methods.map Prod.fst
          ∧ generateMethodDef h d (methodsIndex d.Methods n) n = .error e
          ∧ (∀ p ∈ d.Methods, (generateMethodDef h d p.2 p.1).isOk = false → strLe n p.1)
          ∧ generateMethods h d
            = { writes := [],
                outcome := .error ("failed to generate method definition of " ++ n ++ ": "
                  ++ e) }) := by
  have hfailed : (∃ p ∈ d.Methods, (generateMethodDef h d p.2 p.1).isOk = false) →
      ∃ n ∈ sortStrings (d.Methods.map Prod.fst), methodFails h d n = true := by
    rintro ⟨p, hp, hf⟩
    refine ⟨p.1, (sortStrings_perm _).mem_iff.mpr (List.mem_map_of_mem Prod.fst hp), ?_⟩
    rw [methodFails_of_mem h d hnd p hp, hf]
    rfl
  have hnowrite : (∃ p ∈ d.Methods, (generateMethodDef h d p.2 p.1).isOk = false) →
      (generateMethods h d).writes = [] := by
    intro hex
    have hl := generateMethodsLoop_fails h d _ preamble (hfailed hex)
    rw [generateMethods_eq]
    cases hr : generateMethodsLoop h d (sortStrings (d.Methods.map Prod.fst)) preamble with
    | ok f => rw [hr] at hl; simp [Result.isOk] at hl
    | error e => rfl
    | panic q => rfl
  have hdecide : ∀ n ∈ d.Methods.map Prod.fst,
      (∀ p ∈ d.Methods, (generateMethodDef h d p.2 p.1).isOk = false → strLe n p.1) →
      (∀ e, generateMethodDef h d (methodsIndex d.Methods n) n = .error e →
        generateMethods h d
          = { writes := [],
              outcome := .error ("failed to generate method definition of " ++ n ++ ": "
                ++ e) })
      ∧ (∀ q, generateMethodDef h d (methodsIndex d.Methods n) n = .panic q →
        generateMethods h d = { writes := [], outcome := .panic q }) := by
    intro n hn hleast
    constructor
    · intro e he
      have hf : methodFails h d n = true := by
        unfold methodFails
        rw [he]
        rfl
      rw [generateMethods_eq,
        generateMethodsLoop_error h d _ n e preamble (least_failing_found h d hnd n hn hf hleast) he]
    · intro q he
      have hf : methodFails h d n = true := by
        unfold methodFails
        rw [he]
        rfl
      rw [generateMethods_eq,
        generateMethodsLoop_panic h d _ n q preamble (least_failing_found h d hnd n hn hf hleast) he]
  refine ⟨⟨?_, ?_⟩, hdecide, ?_⟩
  · intro hw
    by_contra hno
    push_neg at hno
    obtain ⟨p, hp, hf⟩ := hno
    exact hw (hnowrite ⟨p, hp, by simpa using hf⟩)
  · intro hok
    rw [generateMethods_eq,
      generateMethodsLoop_ok h d _ preamble ((all_sorted_ok_iff h d hnd).mpr hok)]
    simp
  · intro hwf hex
    obtain ⟨n0, hn0, hf0⟩ := hfailed hex
    cases hfind : (sortStrings (d.Methods.map Prod.fst)).find? (methodFails h d) with
    | none =>
      have := List.find?_eq_none.mp hfind n0 hn0
      rw [hf0] at this
      exact absurd rfl this
    | some n =>
      have hnmem : n ∈ sortStrings (d.Methods.map Prod.fst) := List.mem_of_find?_eq_some hfind
      have hnkey : n ∈ d.Methods.map Prod.fst := (sortStrings_perm _).mem_iff.mp hnmem
      have hnf : methodFails h d n = true := List.find?_some hfind
      obtain ⟨p, hp, hpn⟩ := List.mem_map.mp hnkey
      have hidx : methodsIndex d.Methods n = p.2 := by
        rw [← hpn]
        exact methodsIndex_of_mem d.Methods p hp hnd
      have hleast : ∀ r ∈ d.Methods, (generateMethodDef h d r.2 r.1).isOk = false →
          strLe n r.1 := by
        intro r hr hrf
        have hrm : r.1 ∈ sortStrings (d.Methods.map Prod.fst) :=
          (sortStrings_perm _).mem_iff.mpr (List.mem_map_of_mem Prod.fst hr)
        have hrfail : methodFails h d r.1 = true := by
          rw [methodFails_of_mem h d hnd r hr, hrf]
          rfl
        exact sorted_find_le (methodFails h d) _ (sortStrings_sorted _) n r.1 hfind hrm hrfail
      cases hres : generateMethodDef h d (methodsIndex d.Methods n) n with
      | ok t =>
        unfold methodFails at hnf
        rw [hres] at hnf
        simp [Result.isOk] at hnf
      | panic q =>
        rw [hidx] at hres
        rw [← hpn] at hres
        exact absurd hres (no_panic_of_wellFormed h d p.2 p.1 (hwf p hp) q)
      | error e =>
        exact ⟨n, e, hnkey, hres, hleast, (hdecide n hnkey hleast).1 e hres⟩

set_option maxRecDepth 100000 in
theorem generateMethods_all_or_nothing_witness :
    (sampleAPIBrokenTwice.Methods.map Prod.fst).Nodup
    ∧ ("editDice" ∈ sampleAPIBrokenTwice.Methods.map Prod.fst
        ∧ (∀ p ∈ sampleAPIBrokenTwice.Methods,
            (generateMethodDef sampleHelpers sampleAPIBrokenTwice p.2 p.1).isOk = false →
              strLe "editDice" p.1)
        ∧ (∀ p ∈ sampleAPIBrokenTwice.Methods,
            wellFormedReturns sampleHelpers sampleAPIBrokenTwice p.2 = true)
        ∧ (generateMethodDef sampleHelpers sampleAPIBrokenTwice sendDice "sendDice").isOk = false)
    ∧ generateMethods sampleHelpers sampleAPIBrokenTwice
        = { writes := [],
            outcome := .error ("failed to generate method definition of " ++ "editDice" ++ ": "
              ++ ("failed to get args for method editDice: failed to get preferred type: "
                ++ "unable to choose one type for field message_id")) } :=
  ⟨by decide, ⟨by decide, by decide, by decide, by decide⟩,
   ((generateMethods_all_or_nothing sampleHelpers sampleAPIBrokenTwice (by decide)).2.1
      "editDice" (by decide) (by decide)).1 _ (by decide)⟩

end Gotgbot
